import Mathlib

/-!
Verification development for the POSIX-backed decomposed storage engine
(trashbin, revision engine, scan debouncer, assimilation).

The filesystem is modelled as an association list from paths (lists of
name components) to entries carrying a directory flag, file content,
an mtime and extended attributes.  Timestamps are modelled as naturals
rendered in decimal wherever the source formats RFC3339Nano strings.
Stateful operations are translated as functions from a state to a pair
of the updated state and an `Except` result, so that effects performed
before an error return remain visible.
-/

namespace Reva

/-- Filesystem paths as lists of name components. -/
abbrev Path := List String

/-- Boolean prefix test on paths (`pfx a b` holds when `a` is a prefix of `b`). -/
def pfx : Path → Path → Bool
  | [], _ => true
  | _ :: _, [] => false
  | a :: l, b :: m => a = b && pfx l m

theorem pfx_refl (p : Path) : pfx p p = true := by
  induction p with
  | nil => rfl
  | cons a l ih => simp [pfx, ih]

theorem pfx_append (p q : Path) : pfx p (p ++ q) = true := by
  induction p with
  | nil => rfl
  | cons a l ih => simp [pfx, ih]

theorem ne_of_pfx_false (a b : Path) (h : pfx a b = false) : a ≠ b := by
  intro he
  rw [he, pfx_refl] at h
  exact Bool.true_eq_false.mp h

theorem head?_dropLast (l : Path) : l.dropLast = [] ∨ l.dropLast.head? = l.head? := by
  cases l with
  | nil => exact Or.inl rfl
  | cons a m =>
    cases m with
    | nil => exact Or.inl rfl
    | cons b k => exact Or.inr (by simp [List.dropLast])

theorem pfx_iff (p q : Path) : pfx p q = true ↔ ∃ r, q = p ++ r := by
  induction p generalizing q with
  | nil => simp [pfx]
  | cons a l ih =>
    cases q with
    | nil => simp [pfx]
    | cons b m =>
      simp only [pfx, Bool.and_eq_true, decide_eq_true_eq, ih]
      constructor
      · rintro ⟨rfl, r, rfl⟩; exact ⟨r, rfl⟩
      · rintro ⟨r, h⟩
        cases h
        exact ⟨rfl, r, rfl⟩

/-- A filesystem entry: directory flag, file content, filesystem mtime and
extended attributes. -/
structure FsEntry where
  isDir : Bool := false
  content : String := ""
  mtime : Nat := 0
  xattrs : List (String × String) := []
deriving DecidableEq, Repr

/-- A filesystem: a finite map from paths to entries, as an association list
(first binding wins). -/
abbrev FS := List (Path × FsEntry)

/-- First-match association-list lookup. -/
def alookup {α β : Type} [DecidableEq α] : List (α × β) → α → Option β
  | [], _ => none
  | b :: l, k => if b.fst = k then some b.snd else alookup l k

/-- Look up the entry stored at a path. -/
def fsGet (fs : FS) (p : Path) : Option FsEntry :=
  alookup fs p

/-- Store an entry at a path, replacing any previous binding. -/
def fsSet (fs : FS) (p : Path) (e : FsEntry) : FS :=
  (p, e) :: fs.filter (fun b => decide (b.fst ≠ p))

/-- Remove the binding at exactly `p` (used for `os.Remove` on files). -/
def fsDrop (fs : FS) (p : Path) : FS :=
  fs.filter (fun b => decide (b.fst ≠ p))

/-- Remove `p` and everything below it (used for `os.RemoveAll`). -/
def fsDropAll (fs : FS) (p : Path) : FS :=
  fs.filter (fun b => pfx p b.fst = false)

theorem alookup_filterKey {α β : Type} [DecidableEq α] (l : List (α × β)) (k j : α)
    (h : j ≠ k) :
    alookup (l.filter (fun b => decide (b.fst ≠ k))) j = alookup l j := by
  induction l with
  | nil => rfl
  | cons b l ih =>
    by_cases hb : b.fst = k
    · rw [List.filter_cons_of_neg (by simp [hb])]
      rw [ih]
      simp only [alookup]
      rw [if_neg (by rw [hb]; exact Ne.symm h)]
    · rw [List.filter_cons_of_pos (by simp [hb])]
      simp only [alookup]
      by_cases hq : b.fst = j
      · rw [if_pos hq, if_pos hq]
      · rw [if_neg hq, if_neg hq, ih]

theorem alookup_filterKey_self {α β : Type} [DecidableEq α] (l : List (α × β)) (k : α) :
    alookup (l.filter (fun b => decide (b.fst ≠ k))) k = none := by
  induction l with
  | nil => rfl
  | cons b l ih =>
    by_cases hb : b.fst = k
    · rw [List.filter_cons_of_neg (by simp [hb])]
      exact ih
    · rw [List.filter_cons_of_pos (by simp [hb])]
      simp only [alookup]
      rw [if_neg hb]
      exact ih

theorem fsGet_fsSet_same (fs : FS) (p : Path) (e : FsEntry) :
    fsGet (fsSet fs p e) p = some e := by
  simp [fsGet, fsSet, alookup]

theorem fsGet_fsSet_other (fs : FS) (p q : Path) (e : FsEntry) (h : q ≠ p) :
    fsGet (fsSet fs p e) q = fsGet fs q := by
  simp only [fsGet, fsSet, alookup]
  rw [if_neg (fun he => h he.symm)]
  exact alookup_filterKey fs p q h

theorem fsGet_fsDrop_other (fs : FS) (p q : Path) (h : q ≠ p) :
    fsGet (fsDrop fs p) q = fsGet fs q :=
  alookup_filterKey fs p q h

theorem fsGet_fsDrop_same (fs : FS) (p : Path) :
    fsGet (fsDrop fs p) p = none :=
  alookup_filterKey_self fs p

theorem pfx_append_cancel (a b c : Path) : pfx (a ++ b) (a ++ c) = pfx b c := by
  induction a with
  | nil => rfl
  | cons x l ih => simp [pfx, ih]

theorem pfx_length_le (a b : Path) (h : pfx a b = true) : a.length ≤ b.length := by
  induction a generalizing b with
  | nil => simp
  | cons x l ih =>
    cases b with
    | nil => simp [pfx] at h
    | cons y m =>
      simp only [pfx, Bool.and_eq_true, decide_eq_true_eq] at h
      simpa using ih m h.2

theorem pfx_false_of_head_ne (x : String) (ys l : Path) (h : l.head? ≠ some x) :
    pfx (x :: ys) l = false := by
  cases l with
  | nil => rfl
  | cons y m =>
    simp only [List.head?_cons, ne_eq, Option.some.injEq] at h
    have hxy : decide (x = y) = false := decide_eq_false (fun hx => h hx.symm)
    simp [pfx, hxy]

theorem pfx_false_of_head_ne2 (x : String) (ys l : Path) (h : l.head? ≠ some x)
    (hne : l ≠ []) : pfx l (x :: ys) = false := by
  cases l with
  | nil => exact absurd rfl hne
  | cons y m =>
    simp only [List.head?_cons, ne_eq, Option.some.injEq] at h
    have hxy : decide (y = x) = false := decide_eq_false h
    simp [pfx, hxy]

/-- Look up an extended attribute on an entry. -/
def attrOf (e : FsEntry) (k : String) : Option String :=
  alookup e.xattrs k

/-- Set an extended attribute on an entry. -/
def attrSet (e : FsEntry) (k v : String) : FsEntry :=
  { e with xattrs := (k, v) :: e.xattrs.filter (fun b => decide (b.fst ≠ k)) }

theorem attrOf_attrSet_same (e : FsEntry) (k v : String) :
    attrOf (attrSet e k v) k = some v := by
  simp [attrOf, attrSet, alookup]

theorem attrOf_attrSet_other (e : FsEntry) (k k2 v : String) (h : k2 ≠ k) :
    attrOf (attrSet e k v) k2 = attrOf e k2 := by
  simp only [attrOf, attrSet, alookup]
  rw [if_neg (fun he => h he.symm)]
  exact alookup_filterKey e.xattrs k k2 h

/-- Structural model of `strings.HasPrefix` (reduces definitionally, unlike
`String.startsWith`). -/
def strHasPfx (s pre : String) : Bool :=
  pre.data.isPrefixOf s.data

/-- Structural model of `strings.HasSuffix`. -/
def strHasSfx (s suf : String) : Bool :=
  suf.data.reverse.isPrefixOf s.data.reverse

/-- Drop the first `n` characters of a string (structural). -/
def strDropN (s : String) (n : Nat) : String :=
  String.mk (s.data.drop n)

/-- Drop the last `n` characters of a string (structural). -/
def strDropRightN (s : String) (n : Nat) : String :=
  String.mk (s.data.take (s.data.length - n))

/-- Accumulating decimal parse of a character list; `none` on a non-digit or
on an empty input. -/
def digitsVal : List Char → Option Nat → Option Nat
  | [], acc => acc
  | c :: rest, acc =>
    if c.isDigit then digitsVal rest (some ((acc.getD 0) * 10 + (c.toNat - 48)))
    else none

/-- Structural model of a decimal natural parse. -/
def strToNat? (s : String) : Option Nat :=
  digitsVal s.data none

/-- Structural model of a decimal integer parse. -/
def strToInt? (s : String) : Option Int :=
  match s.data with
  | '-' :: rest => (digitsVal rest none).map (fun n => -(n : Int))
  | _ => (digitsVal s.data none).map (fun n => (n : Int))

/-- Fuelled splitting of a character list on a separator sequence, mirroring
`strings.Split` for a non-empty separator. -/
def splitChars (sep : List Char) : Nat → List Char → List (List Char)
  | _, [] => [[]]
  | 0, l => [l]
  | fuel + 1, c :: rest =>
    if sep.isPrefixOf (c :: rest) && !sep.isEmpty then
      [] :: splitChars sep fuel ((c :: rest).drop sep.length)
    else
      match splitChars sep fuel rest with
      | [] => [[c]]
      | g :: gs => (c :: g) :: gs

/-- Structural model of `strings.Split`. -/
def splitStr (s sep : String) : List String :=
  (splitChars sep.data (s.data.length + 1) s.data).map String.mk

/-- Error taxonomy of the engine (values, not types). -/
inductive Err where
  | notFound (msg : String)
  | permissionDenied (msg : String)
  | alreadyExists (msg : String)
  | internalError (msg : String)
  | pathError
  | attrUnset
  | parseError
deriving DecidableEq, Repr

instance instDecEqExcept {ε α : Type} [DecidableEq ε] [DecidableEq α] :
    DecidableEq (Except ε α) := fun a b =>
  match a, b with
  | .ok x, .ok y =>
    if h : x = y then isTrue (by rw [h]) else isFalse (by intro he; cases he; exact h rfl)
  | .error x, .error y =>
    if h : x = y then isTrue (by rw [h]) else isFalse (by intro he; cases he; exact h rfl)
  | .ok _, .error _ => isFalse (by intro he; cases he)
  | .error _, .ok _ => isFalse (by intro he; cases he)

/-- True exactly on `NotFound` errors. -/
def Err.isNotFound : Err → Bool
  | .notFound _ => true
  | _ => false

/-- True exactly on `PermissionDenied` errors. -/
def Err.isPermissionDenied : Err → Bool
  | .permissionDenied _ => true
  | _ => false

/-- Xattr key constants, from the `user.oc.` namespace (spec section 6). -/
def idAttr : String := "user.oc.id"

def parentidAttr : String := "user.oc.parentid"

def nameAttr : String := "user.oc.name"

def typeAttr : String := "user.oc.type"

def blobIDAttr : String := "user.oc.blobid"

def blobsizeAttr : String := "user.oc.blobsize"

def mtimeAttr : String := "user.oc.mtime"

def treesizeAttr : String := "user.oc.treesize"

def propagationAttr : String := "user.oc.propagation"

def checksumAttrStem : String := "user.oc.cs."

def dirtyAttr : String := "user.oc.dirty"

/-- Modelled from the spec: space roots are recognisable from their xattrs
(`idsForPath` reads xattrs and yields a space id, section 4.1); we mark a space
root with its space id under this key. -/
def spaceIDAttr : String := "user.oc.space.id"

/-- Helper for `mkdirAll`: create the missing directories along `rest` below
`cur`; fails when an existing non-directory entry is in the way. -/
def mkdirAllGo (fs : FS) (cur : Path) : List String → Except Err FS
  | [] => .ok fs
  | c :: rest =>
    let q := cur ++ [c]
    match fsGet fs q with
    | some e => if e.isDir then mkdirAllGo fs q rest else .error .pathError
    | none => mkdirAllGo (fsSet fs q { isDir := true }) q rest

/-- Model of `os.MkdirAll`. -/
def mkdirAll (fs : FS) (p : Path) : Except Err FS :=
  mkdirAllGo fs [] p

/-- True when `p` is the root or an existing directory entry. -/
def dirExists (fs : FS) (p : Path) : Bool :=
  decide (p = []) ||
    (match fsGet fs p with
     | some e => e.isDir
     | none => false)

/-- Model of `os.WriteFile`: create or truncate a regular file (keeping the
xattrs of an existing file); fails when the parent directory is missing or the
target is a directory. -/
def writeFileAt (fs : FS) (p : Path) (content : String) (now : Nat) : Except Err FS :=
  match fsGet fs p with
  | some e =>
    if e.isDir then .error .pathError
    else .ok (fsSet fs p { e with content := content, mtime := now })
  | none =>
    if dirExists fs p.dropLast then
      .ok (fsSet fs p { content := content, mtime := now })
    else .error .pathError

/-- The subtree below `src`, re-rooted below `dst` (helper for `renameFs`). -/
def fsMovePart (fs : FS) (src dst : Path) : FS :=
  (fs.filter (fun b => pfx src b.fst)).map (fun b => (dst ++ b.fst.drop src.length, b.snd))

/-- Model of `os.Rename`: move `src` (and everything below it) to `dst`,
replacing anything previously at `dst`; fails when `src` is missing. -/
def renameFs (fs : FS) (src dst : Path) : Except Err FS :=
  match fsGet fs src with
  | none => .error .pathError
  | some _ =>
    .ok ((fs.filter (fun b => pfx src b.fst = false && pfx dst b.fst = false)) ++
      fsMovePart fs src dst)

theorem attrSet_content (e : FsEntry) (k v : String) : (attrSet e k v).content = e.content :=
  rfl

theorem attrSet_isDir (e : FsEntry) (k v : String) : (attrSet e k v).isDir = e.isDir :=
  rfl

theorem fsGet_filterPath (fs : FS) (P : Path → Bool) (q : Path) :
    fsGet (fs.filter (fun b => P b.fst)) q = if P q then fsGet fs q else none := by
  induction fs with
  | nil => simp [fsGet, alookup]
  | cons b l ih =>
    by_cases hb : P b.fst
    · rw [List.filter_cons_of_pos (by simpa using hb)]
      by_cases hq : b.fst = q
      · subst hq
        simp [fsGet, alookup, hb]
      · simp only [fsGet, alookup, if_neg hq]
        exact ih
    · rw [List.filter_cons_of_neg (by simpa using hb)]
      by_cases hq : b.fst = q
      · subst hq
        simp only [fsGet, alookup, if_pos rfl] at ih ⊢
        rw [ih]
        simp [hb]
      · simp only [fsGet, alookup, if_neg hq]
        exact ih

theorem fsGet_append_or (l1 l2 : FS) (q : Path) :
    fsGet (l1 ++ l2) q =
      match fsGet l1 q with
      | some e => some e
      | none => fsGet l2 q := by
  induction l1 with
  | nil => simp [fsGet, alookup]
  | cons b l ih =>
    by_cases hq : b.fst = q
    · simp [fsGet, alookup, hq]
    · simp only [fsGet, alookup, List.cons_append, if_neg hq]
      exact ih

theorem fsMovePart_cons_pos (b : Path × FsEntry) (l : FS) (src dst : Path)
    (h : pfx src b.fst = true) :
    fsMovePart (b :: l) src dst =
      (dst ++ b.fst.drop src.length, b.snd) :: fsMovePart l src dst := by
  simp [fsMovePart, List.filter_cons, h]

theorem fsMovePart_cons_neg (b : Path × FsEntry) (l : FS) (src dst : Path)
    (h : pfx src b.fst = false) :
    fsMovePart (b :: l) src dst = fsMovePart l src dst := by
  simp [fsMovePart, List.filter_cons, h]

theorem fsGet_movePart (fs : FS) (src dst r : Path) :
    fsGet (fsMovePart fs src dst) (dst ++ r) = fsGet fs (src ++ r) := by
  induction fs with
  | nil => rfl
  | cons b l ih =>
    by_cases hb : pfx src b.fst = true
    · rw [fsMovePart_cons_pos b l src dst hb]
      obtain ⟨t, ht⟩ := (pfx_iff src b.fst).mp hb
      by_cases htr : t = r
      · subst htr
        simp [fsGet, alookup, ht, List.drop_left]
      · have hne1 : ¬ (dst ++ t = dst ++ r) := fun hx => htr (List.append_cancel_left hx)
        have hne2 : ¬ (src ++ t = src ++ r) := fun hx => htr (List.append_cancel_left hx)
        simp only [fsGet, alookup, ht, List.drop_left]
        rw [if_neg hne1, if_neg hne2]
        exact ih
    · have hb2 : pfx src b.fst = false := eq_false_of_ne_true hb
      rw [fsMovePart_cons_neg b l src dst hb2]
      have hbne : ¬ (b.fst = src ++ r) := by
        intro hx
        rw [hx, pfx_append] at hb2
        exact Bool.true_eq_false.mp hb2
      simp only [fsGet, alookup]
      rw [if_neg hbne]
      exact ih

theorem fsGet_movePart_none (fs : FS) (src dst q : Path) (h : pfx dst q = false) :
    fsGet (fsMovePart fs src dst) q = none := by
  induction fs with
  | nil => rfl
  | cons b l ih =>
    by_cases hb : pfx src b.fst = true
    · rw [fsMovePart_cons_pos b l src dst hb]
      have hne : ¬ (dst ++ b.fst.drop src.length = q) := by
        intro hx
        rw [← hx, pfx_append] at h
        exact Bool.true_eq_false.mp h
      simp only [fsGet, alookup]
      rw [if_neg hne]
      exact ih

    · have hb2 : pfx src b.fst = false := eq_false_of_ne_true hb
      rw [fsMovePart_cons_neg b l src dst hb2]
      exact ih

theorem renameFs_ok (fs : FS) (src dst : Path) (e : FsEntry) (h : fsGet fs src = some e) :
    renameFs fs src dst =
      .ok ((fs.filter (fun b => pfx src b.fst = false && pfx dst b.fst = false)) ++
        fsMovePart fs src dst) := by
  simp [renameFs, h]

theorem renameFs_get_under_dst (fs : FS) (src dst r : Path) :
    fsGet ((fs.filter (fun b => pfx src b.fst = false && pfx dst b.fst = false)) ++
        fsMovePart fs src dst) (dst ++ r) = fsGet fs (src ++ r) := by
  rw [fsGet_append_or]
  have hfil : fsGet (fs.filter (fun b => pfx src b.fst = false && pfx dst b.fst = false))
      (dst ++ r) = none := by
    have := fsGet_filterPath fs (fun q => pfx src q = false && pfx dst q = false) (dst ++ r)
    simp only [this, pfx_append, Bool.and_eq_true]
    simp
  rw [hfil]
  exact fsGet_movePart fs src dst r

theorem renameFs_get_dst (fs : FS) (src dst : Path) :
    fsGet ((fs.filter (fun b => pfx src b.fst = false && pfx dst b.fst = false)) ++
        fsMovePart fs src dst) dst = fsGet fs src := by
  have h := renameFs_get_under_dst fs src dst []
  simpa using h

theorem renameFs_get_other (fs : FS) (src dst q : Path) (h1 : pfx src q = false)
    (h2 : pfx dst q = false) :
    fsGet ((fs.filter (fun b => pfx src b.fst = false && pfx dst b.fst = false)) ++
        fsMovePart fs src dst) q = fsGet fs q := by
  rw [fsGet_append_or]
  have hfil := fsGet_filterPath fs (fun q => pfx src q = false && pfx dst q = false) q
  simp only [hfil, h1, h2, Bool.and_self, if_true]
  cases hq : fsGet fs q with
  | none => simp [fsGet_movePart_none fs src dst q h2]
  | some e => simp

theorem alookupKeepSnd (l : List ((String × String) × Path)) (k : String × String) (q p : Path)
    (h : alookup l k = some q) (hqp : q ≠ p) :
    alookup (l.filter (fun b => decide (b.snd ≠ p))) k = some q := by
  induction l with
  | nil => simp [alookup] at h
  | cons b l ih =>
    by_cases hb : b.fst = k
    · rw [alookup, if_pos hb] at h
      injection h with h2
      subst h2
      rw [List.filter_cons_of_pos (by simp [hqp]), alookup, if_pos hb]
    · rw [alookup, if_neg hb] at h
      by_cases hbp : b.snd = p
      · rw [List.filter_cons_of_neg (by simp [hbp])]
        exact ih h
      · rw [List.filter_cons_of_pos (by simp [hbp]), alookup, if_neg hb]
        exact ih h

theorem mkdirAllGo_ok_dir (fs fs2 : FS) (cur : Path) (l : List String)
    (h : mkdirAllGo fs cur l = .ok fs2) (hne : l ≠ []) :
    ∃ d, fsGet fs2 (cur ++ l) = some d ∧ d.isDir = true := by
  induction l generalizing fs cur with
  | nil => exact absurd rfl hne
  | cons c rest ih =>
    simp only [mkdirAllGo] at h
    cases hg : fsGet fs (cur ++ [c]) with
    | some e =>
      rw [hg] at h
      by_cases hd : e.isDir
      · have h2 : mkdirAllGo fs (cur ++ [c]) rest = Except.ok fs2 := by
          have h3 : (if e.isDir = true then mkdirAllGo fs (cur ++ [c]) rest
              else Except.error Err.pathError) = Except.ok fs2 := h
          rwa [if_pos hd] at h3
        cases rest with
        | nil =>
          simp only [mkdirAllGo, Except.ok.injEq] at h2
          subst h2
          exact ⟨e, by simpa using hg, hd⟩
        | cons c2 r2 =>
          have := ih fs (cur ++ [c]) h2 (by simp)
          simpa using this
      · have h3 : (if e.isDir = true then mkdirAllGo fs (cur ++ [c]) rest
            else Except.error Err.pathError) = Except.ok fs2 := h
        rw [if_neg hd] at h3
        cases h3
    | none =>
      rw [hg] at h
      have h2 : mkdirAllGo (fsSet fs (cur ++ [c]) { isDir := true }) (cur ++ [c]) rest =
          Except.ok fs2 := h
      cases rest with
      | nil =>
        simp only [mkdirAllGo, Except.ok.injEq] at h2
        subst h2
        refine ⟨{ isDir := true }, ?_, rfl⟩
        simpa using fsGet_fsSet_same fs (cur ++ [c]) { isDir := true }
      | cons c2 r2 =>
        have := ih (fsSet fs (cur ++ [c]) { isDir := true }) (cur ++ [c]) h2 (by simp)
        simpa using this

/-- The id cache: a bidirectional `(spaceId, id) - path` map kept as two
association lists (spec section 4.1). -/
structure IDCache where
  byId : List ((String × String) × Path) := []
  byPath : List (Path × (String × String)) := []
deriving DecidableEq, Repr

/-- Modelled from the spec: `getCachedId(spaceId, id)` (section 4.1). -/
def getCachedID (c : IDCache) (spaceID id : String) : Option Path :=
  alookup c.byId (spaceID, id)

/-- Modelled from the spec: `cacheId(spaceId, id, path)` stores both directions
(section 4.1). -/
def cacheID (c : IDCache) (spaceID id : String) (p : Path) : IDCache :=
  { byId := ((spaceID, id), p) :: c.byId.filter (fun b => decide (b.fst ≠ (spaceID, id))),
    byPath := (p, (spaceID, id)) :: c.byPath.filter (fun b => decide (b.fst ≠ p)) }

/-- Modelled from the spec: `deletePath(path)` removes only the reverse entry
(section 4.1). -/
def idcDeletePath (c : IDCache) (p : Path) : IDCache :=
  { c with byPath := c.byPath.filter (fun b => decide (b.fst ≠ p)) }

/-- Modelled from the spec: `IDCache.DeleteByPath` drops both directions of the
pair bound to a path (section 6). -/
def idcDeleteByPath (c : IDCache) (p : Path) : IDCache :=
  { byId := c.byId.filter (fun b => decide (b.snd ≠ p)),
    byPath := c.byPath.filter (fun b => decide (b.fst ≠ p)) }

/-- The engine state: the POSIX tree with xattrs, the id cache, and the
metadata backend's cache of paths whose metadata it has loaded. -/
structure St where
  fs : FS := []
  idc : IDCache := {}
  metaCache : List Path := []
deriving DecidableEq, Repr

/-- Modelled from the spec: `MetadataBackend.Purge` invalidates the cached
metadata of a node (backend not under src/). On-disk xattrs travel with the
file on rename, as the trash round-trip invariant requires (spec sections 4.3
and 8, invariant 5). -/
def mdPurge (st : St) (p : Path) : St :=
  { st with metaCache := st.metaCache.filter (fun q => decide (q ≠ p)) }

/-- Modelled from the spec: `MetadataBackend.IdentifyPath` reads the space id,
id and mtime xattrs at a path (section 6); fails when the path is missing. -/
def identifyPath (st : St) (p : Path) : Except Err (String × String × Option Nat) :=
  match fsGet st.fs p with
  | none => .error .pathError
  | some e =>
    .ok ((attrOf e spaceIDAttr).getD "", (attrOf e idAttr).getD "",
      (attrOf e mtimeAttr).bind strToNat?)

/-- Modelled from the spec: `MetadataBackend.Set` writes one xattr on a node
(section 6); fails when the path is missing. -/
def mdSetAttr (st : St) (p : Path) (k v : String) : St × Except Err Unit :=
  match fsGet st.fs p with
  | none => (st, .error .pathError)
  | some e => ({ st with fs := fsSet st.fs p (attrSet e k v) }, .ok ())

/-- Split a revision id `<nodeId>.REV.<ts>` into node id and timestamp
(`strings.SplitN(id, ".REV.", 2)`). -/
def splitRev (s : String) : Option (String × String) :=
  match splitStr s ".REV." with
  | [] => none
  | [_] => none
  | a :: rest => some (a, String.intercalate ".REV." rest)

/-- Append the `.REV.<ts>` suffix to the last component of a path. -/
def appendRev (p : Path) (ts : String) : Path :=
  match p.getLast? with
  | none => []
  | some c => p.dropLast ++ [c ++ ".REV." ++ ts]

/-- Modelled from the spec: for the POSIX driver `internalPath` is the cached
path (section 4.1); revision ids resolve to the base node's path with the
`.REV.<ts>` suffix; an uncached id yields the empty path. -/
def internalPath (st : St) (spaceID id : String) : Path :=
  match splitRev id with
  | some (base, ts) =>
    match getCachedID st.idc spaceID base with
    | some p => appendRev p ts
    | none => []
  | none => (getCachedID st.idc spaceID id).getD []

/-- Modelled from the spec: `versionPath(spaceId, nodeId, timestamp)` is
`<internalPath>.REV.<timestamp>` (section 4.1). -/
def versionPath (st : St) (spaceID nodeID ts : String) : Path :=
  appendRev (internalPath st spaceID nodeID) ts

/-- Render a path as a slash-separated string. -/
def pathToString (p : Path) : String :=
  String.intercalate "/" p

/-- Join path fragments as `filepath.Join` does for the fragments the engine
produces (an empty, `.` or `/` fragment disappears). -/
def joinStr (a b : String) : String :=
  if b = "" || b = "." || b = "/" then a
  else if a = "" then b else a ++ "/" ++ b

/-- Relative-path components under a trash item; an empty, `.` or `/` relative
path is the whole item (`filepath.Clean` normalises them). -/
def relClean (relativePath : String) : List String :=
  if relativePath = "" || relativePath = "." || relativePath = "/" then []
  else splitStr relativePath "/"

/-- The whole-item test of `PurgeRecycleItem`:
`filepath.Clean(relativePath)` equal to `.` or `/`. -/
def isWholeItem (relativePath : String) : Bool :=
  relativePath = "" || relativePath = "." || relativePath = "/"

/-- A resolved node as the trashbin sees it: its space id, id, the space root
path and its own path. -/
structure TNode where
  spaceID : String := ""
  id : String := ""
  spaceRoot : Path := []
  path : Path := []
deriving DecidableEq, Repr

/-- The permission subset `AssembleTrashPermissions` returns, restricted to
the flags the trashbin inspects. -/
structure TrashPerms where
  purgeRecycle : Bool := false
  listRecycle : Bool := false
  stat : Bool := false
deriving DecidableEq, Repr

/-- Content of a `.trashinfo` sidecar as `writeInfoFile` renders it. -/
def trashInfoContent (relPath : String) (now : Nat) : String :=
  "[Trash Info]" ++ "\nPath=" ++ relPath ++ "\nDeletionDate=" ++ toString now

/-- Model of `Trashbin.writeInfoFile`. -/
def writeInfoFile (st : St) (trashRoot : Path) (key relPath : String) (now : Nat) :
    St × Except Err Unit :=
  match writeFileAt st.fs (trashRoot ++ ["info", key ++ ".trashinfo"])
      (trashInfoContent relPath now) now with
  | .error e => (st, .error e)
  | .ok fs2 => ({ st with fs := fs2 }, .ok ())

/-- The line loop of `Trashbin.readInfoFile`: lenient parse keeping only the
`Path=` and `DeletionDate=` lines; a malformed date aborts. -/
def parseInfoLines : List String → String → Option Nat → Except Err (String × Option Nat)
  | [], path, ts => .ok (path, ts)
  | line :: rest, path, ts =>
    if strHasPfx line "DeletionDate=" then
      match strToNat? (strDropN line 13) with
      | none => .error .parseError
      | some t => parseInfoLines rest path (some t)
    else if strHasPfx line "Path=" then
      parseInfoLines rest (strDropN line 5) ts
    else parseInfoLines rest path ts

/-- Model of `Trashbin.readInfoFile`. -/
def readInfoFile (st : St) (trashRoot : Path) (key : String) :
    Except Err (String × Option Nat) :=
  match fsGet st.fs (trashRoot ++ ["info", key ++ ".trashinfo"]) with
  | none => .error .pathError
  | some e =>
    if e.isDir then .error .pathError
    else parseInfoLines (splitStr e.content "\n") "" none

/-- Model of `Trashbin.MoveToTrash`. The fresh uuid key and the wall clock are
explicit parameters. -/
def moveToTrash (st : St) (n : TNode) (p : Path) (key : String) (now : Nat) :
    St × Except Err Unit :=
  let trashRoot := n.spaceRoot ++ [".Trash"]
  match mkdirAll st.fs (trashRoot ++ ["info"]) with
  | .error e => (st, .error e)
  | .ok fs1 =>
    match mkdirAll fs1 (trashRoot ++ ["files"]) with
    | .error e => ({ st with fs := fs1 }, .error e)
    | .ok fs2 =>
      let relPath := pathToString (if pfx n.spaceRoot p then p.drop n.spaceRoot.length else p)
      match writeInfoFile { st with fs := fs2 } trashRoot key relPath now with
      | (st3, .error e) => (st3, .error e)
      | (st3, .ok _) =>
        let st4 := mdPurge { st3 with idc := idcDeleteByPath st3.idc p } n.path
        match renameFs st4.fs p (trashRoot ++ ["files", key ++ ".trashitem"]) with
        | .error e => (st4, .error e)
        | .ok fs5 => ({ st4 with fs := fs5 }, .ok ())

/-- A recycle item as `ListRecycle` reports it. -/
structure RecycleItem where
  key : String
  size : Nat
  refSpaceID : String
  refPath : String
  deletionTime : Option Nat
  isDir : Bool
deriving DecidableEq, Repr

/-- Model of `os.ReadDir`: the immediate children of a directory (with a
`PathError` when the path is missing or not a directory). -/
def readDirNames (fs : FS) (base : Path) : Except Err (List (String × FsEntry)) :=
  match fsGet fs base with
  | none => .error .pathError
  | some e =>
    if e.isDir then
      .ok (fs.filterMap (fun b =>
        if pfx base b.fst then
          match b.fst.drop base.length with
          | [name] => some (name, b.snd)
          | _ => none
        else none))
    else .error .pathError

/-- The entry loop of `ListRecycle`; the `ts` accumulator mirrors the reuse of
the outer `ts` variable across loop iterations in the source. -/
def listLoop (st : St) (trashRoot : Path) (origPath : String) (key relativePath spaceID : String) :
    List (String × FsEntry) → Option Nat → List RecycleItem
  | [], _ => []
  | (name, e) :: rest, ts =>
    if strHasSfx name ".trashitem" then
      let entryKey := strDropRightN name 10
      match readInfoFile st trashRoot entryKey with
      | .error _ => listLoop st trashRoot origPath key relativePath spaceID rest none
      | .ok (entryOriginalPath, ts2) =>
        { key := joinStr (joinStr key relativePath) entryKey,
          size := e.content.length, refSpaceID := spaceID,
          refPath := entryOriginalPath, deletionTime := ts2, isDir := e.isDir } ::
          listLoop st trashRoot origPath key relativePath spaceID rest ts2
    else
      { key := joinStr (joinStr key relativePath) name,
        size := e.content.length, refSpaceID := spaceID,
        refPath := joinStr origPath name, deletionTime := ts, isDir := e.isDir } ::
        listLoop st trashRoot origPath key relativePath spaceID rest ts

/-- Model of `Trashbin.ListRecycle`. -/
def listRecycle (st : St) (spaceID key relativePath : String) :
    Except Err (List RecycleItem) :=
  let trashRoot := internalPath st spaceID spaceID ++ [".Trash"]
  if key ≠ "" then
    match readInfoFile st trashRoot key with
    | .error e => .error e
    | .ok (origPath, ts) =>
      let base := trashRoot ++ ["files", key ++ ".trashitem"] ++ relClean relativePath
      match readDirNames st.fs base with
      | .error .pathError => .ok []
      | .error e => .error e
      | .ok entries =>
        .ok (listLoop st trashRoot (joinStr origPath relativePath) key relativePath spaceID
          entries ts)
  else
    match readDirNames st.fs (trashRoot ++ ["files"]) with
    | .error .pathError => .ok []
    | .error e => .error e
    | .ok entries => .ok (listLoop st trashRoot "" key relativePath spaceID entries none)

/-- Model of `Trashbin.RestoreRecycleItem`. The restore reference is modelled
as the resolved resource id (`refNodeID`, resolved through the id cache as
`NodeFromID` does) plus the reference path components. -/
def restoreRecycleItem (st : St) (spaceID key relativePath : String) (refNodeID : String)
    (refPath : List String) : St × Except Err Unit :=
  let trashRoot := internalPath st spaceID spaceID ++ [".Trash"]
  let trashPath := trashRoot ++ ["files", key ++ ".trashitem"] ++ relClean relativePath
  match getCachedID st.idc spaceID refNodeID with
  | none => (st, .error (.notFound refNodeID))
  | some basePath =>
    let restorePath := basePath ++ refPath
    match identifyPath st trashPath with
    | .error e => (st, .error e)
    | .ok (_, id, _) =>
      match identifyPath st restorePath.dropLast with
      | .error e => (st, .error e)
      | .ok (_, parentID, _) =>
        if parentID = "" then (st, .error (.internalError "trashbin: parent id not found"))
        else
          match mdSetAttr st trashPath parentidAttr parentID with
          | (st2, .error e) => (st2, .error e)
          | (st2, .ok _) =>
            match renameFs st2.fs trashPath restorePath with
            | .error e => (st2, .error e)
            | .ok fs3 =>
              let st3 := { st2 with fs := fs3, idc := cacheID st2.idc spaceID id restorePath }
              if relativePath = "." || relativePath = "/" then
                match fsGet st3.fs (trashRoot ++ ["info", key ++ ".trashinfo"]) with
                | none => (st3, .error .pathError)
                | some _ =>
                  ({ st3 with fs := fsDrop st3.fs (trashRoot ++ ["info", key ++ ".trashinfo"]) },
                    .ok ())
              else (st3, .ok ())

/-- Model of `Trashbin.PurgeRecycleItem`. Node resolution and
`AssembleTrashPermissions` are external collaborators, so the resolved node and
the assembled permissions are parameters. -/
def purgeRecycleItem (st : St) (n : TNode) (rp : TrashPerms) (key relativePath : String) :
    St × Except Err Unit :=
  if !rp.purgeRecycle then
    (st, .error (if rp.stat then .permissionDenied key else .notFound key))
  else
    let trashRoot := n.spaceRoot ++ [".Trash"]
    let fs2 := fsDropAll st.fs (trashRoot ++ ["files", key ++ ".trashitem"] ++ relClean relativePath)
    let st2 := { st with fs := fs2 }
    if isWholeItem relativePath then
      match fsGet st2.fs (trashRoot ++ ["info", key ++ ".trashinfo"]) with
      | none => (st2, .error .pathError)
      | some _ =>
        ({ st2 with fs := fsDrop st2.fs (trashRoot ++ ["info", key ++ ".trashinfo"]) }, .ok ())
    else (st2, .ok ())

/-- Model of `Trashbin.EmptyRecycle`. -/
def emptyRecycle (st : St) (n : TNode) (rp : TrashPerms) : St × Except Err Unit :=
  if !rp.listRecycle && !rp.purgeRecycle then
    (st, .error (if rp.stat then .permissionDenied n.id else .notFound n.id))
  else
    let trashRoot := n.spaceRoot ++ [".Trash"]
    let st2 := { st with fs := fsDropAll st.fs (trashRoot ++ ["files"]) }
    ({ st2 with fs := fsDropAll st2.fs (trashRoot ++ ["info"]) }, .ok ())

/-- A node as the revision engine sees it after `ReadNode`. -/
structure RNode where
  spaceID : String := ""
  id : String := ""
  parentID : String := ""
  name : String := ""
  blobsize : Int := 0
  present : Bool := true
deriving DecidableEq, Repr

/-- The permission subset `AssemblePermissions` returns, restricted to the
flags the revision engine inspects. -/
structure RevPerms where
  listFileVersions : Bool := false
  initiateFileDownload : Bool := false
  restoreFileVersion : Bool := false
  stat : Bool := false
deriving DecidableEq, Repr

/-- Modelled from the spec: the etag is a deterministic function of
`(nodeId, mtime)` (glossary). -/
def calculateEtag (id : String) (mtime : Nat) : String :=
  id ++ ":" ++ toString mtime

/-- Modelled from the spec: `ReadBlobIDAndSizeAttr` reads the blobid and
blobsize xattrs of a path (lookup component, section 4.1). -/
def readBlobIDAndSizeAttr (st : St) (p : Path) : Except Err (String × Int) :=
  match fsGet st.fs p with
  | none => .error .pathError
  | some e =>
    match attrOf e blobIDAttr, (attrOf e blobsizeAttr).bind strToInt? with
    | some bid, some bs => .ok (bid, bs)
    | _, _ => .error .attrUnset

/-- The xattr filter used when copying metadata onto a revision: checksums,
type, blobid, blobsize and mtime. -/
def revisionAttrFilter (k : String) : Bool :=
  strHasPfx k checksumAttrStem || k = typeAttr || k = blobIDAttr ||
    k = blobsizeAttr || k = mtimeAttr

/-- The xattr filter used when copying metadata from a restored revision back
onto the node: checksums, type, blobid and blobsize (no mtime). -/
def restoreAttrFilter (k : String) : Bool :=
  strHasPfx k checksumAttrStem || k = typeAttr || k = blobIDAttr || k = blobsizeAttr

/-- Overwrite the attributes listed in `new` on an entry, keeping the rest. -/
def attrsSetMany (e : FsEntry) (new : List (String × String)) : FsEntry :=
  { e with xattrs :=
      new ++ e.xattrs.filter (fun b => (alookup new b.fst).isNone) }

/-- Modelled from the spec: `CopyMetadata` / `CopyMetadataWithSourceLock`
copies the xattrs passing the filter from source to target (section 4.4);
fails when either path is missing. -/
def copyMetadataFiltered (st : St) (src dst : Path) (filter : String → Bool) :
    St × Except Err Unit :=
  match fsGet st.fs src, fsGet st.fs dst with
  | some se, some de =>
    ({ st with fs := fsSet st.fs dst (attrsSetMany de (se.xattrs.filter (fun b => filter b.fst))) },
      .ok ())
  | _, _ => (st, .error .pathError)

/-- Model of `Tree.CreateRevision` (the caller already holds the node lock). -/
def createRevision (st : St) (n : RNode) (version : String) (now : Nat) :
    St × Except Err Path :=
  let vPath := versionPath st n.spaceID n.id version
  let nodePath := internalPath st n.spaceID n.id
  match mkdirAll st.fs vPath.dropLast with
  | .error e => (st, .error e)
  | .ok fs1 =>
    let st1 := { st with fs := fs1 }
    match fsGet st1.fs nodePath with
    | none => (st1, .error .pathError)
    | some src =>
      if src.isDir then (st1, .error .pathError)
      else
        match fsGet st1.fs vPath with
        | some _ => (st1, .error (.alreadyExists (pathToString vPath)))
        | none =>
          let st2 := { st1 with fs := fsSet st1.fs vPath { content := src.content, mtime := now } }
          match copyMetadataFiltered st2 nodePath vPath revisionAttrFilter with
          | (st3, .error e) => (st3, .error e)
          | (st3, .ok _) => (st3, .ok vPath)

/-- The revision files of a node: siblings of the node whose name extends the
node name with `.REV.` (the `filepath.Glob` of `ListRevisions`). -/
def globRevisions (fs : FS) (nodePath : Path) : List (Path × FsEntry) :=
  match nodePath.getLast? with
  | none => []
  | some base =>
    fs.filter (fun b =>
      decide (b.fst.dropLast = nodePath.dropLast) &&
        strHasPfx (b.fst.getLast?.getD "") (base ++ ".REV."))

/-- A file version as `ListRevisions` reports it. -/
structure FileVersion where
  key : String
  mtime : Nat
  size : Nat
  etag : String
deriving DecidableEq, Repr

/-- The item loop of `ListRevisions`: skip lock sidecars, read blobsize (zero
on failure), derive key and etag. -/
def listRevisionsLoop (st : St) (n : RNode) : List (Path × FsEntry) → List FileVersion
  | [] => []
  | (p, e) :: rest =>
    let name := p.getLast?.getD ""
    if strHasSfx name ".mlock" then listRevisionsLoop st n rest
    else
      match splitRev name with
      | none => listRevisionsLoop st n rest
      | some (_, ts) =>
        let size := match readBlobIDAndSizeAttr st p with
          | .ok (_, bs) => bs.toNat
          | .error _ => 0
        { key := n.id ++ ".REV." ++ ts, mtime := e.mtime, size := size,
          etag := calculateEtag n.id e.mtime } :: listRevisionsLoop st n rest

/-- Model of `Tree.ListRevisions`. Node resolution and `AssemblePermissions`
are external collaborators; the resolved node, the assembled permissions and
the formatted reference are parameters. -/
def listRevisions (st : St) (n : RNode) (rp : RevPerms) (refStr : String) :
    Except Err (List FileVersion) :=
  if !n.present then .error (.notFound (joinStr n.parentID n.name))
  else if !rp.listFileVersions then
    .error (if rp.stat then .permissionDenied refStr else .notFound refStr)
  else .ok (listRevisionsLoop st n (globRevisions st.fs (internalPath st n.spaceID n.id)))

/-- Resource info of a revision as `DownloadRevision` reports it. -/
structure ResourceInfo where
  size : Nat
  mtime : Nat
  etag : String
deriving DecidableEq, Repr

/-- Model of `Tree.DownloadRevision`; the lazily opened reader is the revision
content when `openReader` is true. -/
def downloadRevision (st : St) (n : RNode) (rp : RevPerms) (refStr revisionKey : String)
    (openReader : Bool) : Except Err (ResourceInfo × Option String) :=
  match splitRev revisionKey with
  | none => .error (.notFound revisionKey)
  | some (_, ts) =>
    if !n.present then .error (.notFound (joinStr n.parentID n.name))
    else if !rp.listFileVersions || !rp.initiateFileDownload then
      .error (if rp.stat then .permissionDenied refStr else .notFound refStr)
    else
      let contentPath := internalPath st n.spaceID revisionKey
      match readBlobIDAndSizeAttr st contentPath with
      | .error e => .error e
      | .ok (_, blobsize) =>
        match strToNat? ts with
        | none => .error .parseError
        | some mtime =>
          let ri : ResourceInfo :=
            { size := blobsize.toNat, mtime := mtime, etag := calculateEtag n.id mtime }
          if openReader then
            match fsGet st.fs contentPath with
            | none => .error .pathError
            | some e => .ok (ri, some e.content)
          else .ok (ri, none)

/-- Append a plain suffix to the last component of a path. -/
def appendRevCore (p : Path) (suffix0 : String) : Path :=
  match p.getLast? with
  | none => []
  | some c => p.dropLast ++ [c ++ suffix0]

/-- The metadata lock sidecar path of a node (`<nodePath>.mlock`). -/
def lockfilePath (p : Path) : Path :=
  appendRevCore p ".mlock"

/-- Fault-injection switches for the fallible steps of `RestoreRevision`
after the new revision file has been created (each models an I/O failure of
that step). -/
structure Faults where
  copyToRevision : Bool := false
  chtimes : Bool := false
  copyToNode : Bool := false
  setMtimeAttr : Bool := false
  readBlobsize : Bool := false
  propagateStep : Bool := false
deriving DecidableEq, Repr

/-- Modelled from the spec: `Propagate` adds the size diff to the treesize
xattr of every ancestor directory and refreshes their mtimes (glossary,
section 4.2); modelled as total on the state. -/
def propagate (st : St) (p : Path) (sizeDiff : Int) (now : Nat) : St :=
  { st with fs := st.fs.map (fun b =>
      if pfx b.fst p && decide (b.fst ≠ p) && decide (b.fst ≠ []) then
        (b.fst, { attrSet b.snd treesizeAttr
          (toString (((attrOf b.snd treesizeAttr).bind strToInt?).getD 0 + sizeDiff)) with
          mtime := now })
      else b) }

/-- The steps of `RestoreRevision` covered by the deferred compensation (all
run after the new revision file exists). -/
def restoreRevisionCore (st : St) (n : RNode) (revisionKey : String)
    (nodePath newRevisionPath : Path) (mtime : Nat) (faults : Faults) (now : Nat) :
    St × Except Err Unit :=
  match (if faults.copyToRevision then (st, Except.error Err.pathError)
         else copyMetadataFiltered st nodePath newRevisionPath revisionAttrFilter) with
  | (st1x, .error _) =>
    (st1x, .error (.internalError "failed to copy blob xattrs to version node"))
  | (st1, .ok _) =>
    match (if faults.chtimes then none
           else (fsGet st1.fs newRevisionPath).map (fun e =>
             fsSet st1.fs newRevisionPath { e with mtime := mtime })) with
    | none => (st1, .error (.internalError "failed to change mtime of version node"))
    | some fs2 =>
      let st2 := { st1 with fs := fs2 }
      let restoredRevisionPath := internalPath st n.spaceID revisionKey
      match (if faults.copyToNode then (st2, Except.error Err.pathError)
             else copyMetadataFiltered st2 restoredRevisionPath nodePath restoreAttrFilter) with
      | (st3x, .error _) =>
        (st3x, .error (.internalError "failed to copy blob xattrs to old revision to node"))
      | (st3, .ok _) =>
        match (if faults.setMtimeAttr then (st3, Except.error Err.pathError)
               else mdSetAttr st3 nodePath mtimeAttr (toString now)) with
        | (st4x, .error _) =>
          (st4x, .error (.internalError "failed to set mtime attribute on node"))
        | (st4, .ok _) =>
          match (if faults.readBlobsize then Except.error Err.pathError
                 else match fsGet st4.fs restoredRevisionPath with
                      | none => Except.error Err.pathError
                      | some e =>
                        match (attrOf e blobsizeAttr).bind strToInt? with
                        | none => Except.error Err.attrUnset
                        | some bs => Except.ok bs) with
          | .error _ =>
            (st4, .error (.internalError "failed to read blob size xattr from old revision"))
          | .ok revisionSize =>
            let fs5 := fsDrop st4.fs restoredRevisionPath
            let fs6 := fsDrop fs5 (lockfilePath restoredRevisionPath)
            let st6 := mdPurge { st4 with fs := fs6 } restoredRevisionPath
            if faults.propagateStep then
              (st6, .error (.internalError "failed to propagate"))
            else (propagate st6 nodePath (revisionSize - n.blobsize) now, .ok ())

/-- The deferred compensation of `RestoreRevision`: remove the created
revision file and purge its metadata. -/
def revisionCompensate (st : St) (newRevisionPath : Path) : St :=
  mdPurge { st with fs := fsDrop st.fs newRevisionPath } newRevisionPath

/-- Model of `os.Create`: create or truncate a regular file. -/
def osCreate (fs : FS) (p : Path) (now : Nat) : Except Err FS :=
  match fsGet fs p with
  | some e0 =>
    if e0.isDir then .error .pathError
    else .ok (fsSet fs p { e0 with content := "", mtime := now })
  | none =>
    if dirExists fs p.dropLast then .ok (fsSet fs p { content := "", mtime := now })
    else .error .pathError

/-- Model of `Tree.RestoreRevision`. Node resolution and permissions are
parameters; `faults` injects I/O failures into the compensated steps. -/
def restoreRevision (st : St) (n : RNode) (rp : RevPerms) (refStr revisionKey : String)
    (faults : Faults) (now : Nat) : St × Except Err Unit :=
  match splitRev revisionKey with
  | none => (st, .error (.notFound revisionKey))
  | some (baseID, _) =>
    if !n.present then (st, .error (.notFound (joinStr n.parentID n.name)))
    else if !rp.restoreFileVersion then
      (st, .error (if rp.stat then .permissionDenied refStr else .notFound refStr))
    else
      let nodePath := internalPath st n.spaceID baseID
      match fsGet st.fs nodePath with
      | none => (st, .error .pathError)
      | some ne =>
        match (attrOf ne mtimeAttr).bind strToNat? with
        | none => (st, .error .attrUnset)
        | some mtime =>
          let newRevisionPath := internalPath st n.spaceID (baseID ++ ".REV." ++ toString mtime)
          match osCreate st.fs newRevisionPath now with
          | .error e => (st, .error e)
          | .ok fsC =>
            match restoreRevisionCore { st with fs := fsC } n revisionKey nodePath
                newRevisionPath mtime faults now with
            | (st2, .ok _) => (st2, .ok ())
            | (st2, .error e) => (revisionCompensate st2 newRevisionPath, .error e)

/-- Modelled from the spec: `BlobStore.DeleteBlob` (section 6); for the POSIX
driver the revision file itself carries the content and has already been
removed by the caller, so this is the identity on the modelled state. -/
def deleteBlob (st : St) (_n : RNode) : St :=
  st

/-- Model of `Tree.getRevisionNode` (the shared resolution and permission
check of `DeleteRevision`). -/
def getRevisionNode (_st : St) (n : RNode) (rp : RevPerms) (revisionKey : String)
    (hasPermission : RevPerms → Bool) : Except Err RNode :=
  match splitRev revisionKey with
  | none => .error (.notFound revisionKey)
  | some _ =>
    if !n.present then .error (.notFound (joinStr n.parentID n.name))
    else if !hasPermission rp then .error (.permissionDenied (joinStr n.parentID n.name))
    else .ok n

/-- Model of `Tree.DeleteRevision`. -/
def deleteRevision (st : St) (n : RNode) (rp : RevPerms) (revisionKey : String) :
    St × Except Err Unit :=
  match getRevisionNode st n rp revisionKey (fun p => p.restoreFileVersion) with
  | .error e => (st, .error e)
  | .ok n2 =>
    let st2 := { st with fs := fsDropAll st.fs (internalPath st n2.spaceID revisionKey) }
    (deleteBlob st2 n2, .ok ())

/-- A scan request as handed to the debouncer. -/
structure ScanItem where
  path : Path := []
  forceRescan : Bool := false
  recurse : Bool := false
deriving DecidableEq, Repr

/-- The pending entry of the debouncer for one path: the raw item most
recently stored plus the force/recurse flags captured by the timer closure. -/
structure PendingEntry where
  item : ScanItem
  capturedForce : Bool
  capturedRecurse : Bool
deriving DecidableEq, Repr

/-- Model of `ScanDebouncer.Debounce` for one path with `after > 0`: merge the
incoming flags with the raw flags of the stored pending item, stop its timer,
and store the new raw item with a fresh timer capturing the merged flags. -/
def debounceStep (st : Option PendingEntry) (item : ScanItem) : Option PendingEntry :=
  match st with
  | none =>
    some { item := item, capturedForce := item.forceRescan, capturedRecurse := item.recurse }
  | some q =>
    some { item := item,
           capturedForce := item.forceRescan || q.item.forceRescan,
           capturedRecurse := item.recurse || q.item.recurse }

/-- Model of the timer firing with no run in progress: `f` receives the item
rebuilt from the captured path and flags. -/
def debounceFire (path : Path) (st : Option PendingEntry) : Option ScanItem :=
  st.map (fun q =>
    { path := path, forceRescan := q.capturedForce, recurse := q.capturedRecurse })

/-- A sequence of `Debounce` calls for one path, none of whose timers fire
before the last call. -/
def debounceRun (items : List ScanItem) : Option PendingEntry :=
  items.foldl debounceStep none

/-- The pending and in-progress path sets of the debouncer, as `InProgress`
consults them. -/
structure DebState where
  pending : List Path := []
  inProgress : List Path := []
deriving DecidableEq, Repr

/-- Model of `ScanDebouncer.InProgress`: the path is pending or actively
processing. -/
def inProgressB (d : DebState) (p : Path) : Bool :=
  d.pending.any (fun q => decide (q = p)) || d.inProgress.any (fun q => decide (q = p))

/-- Filesystem event actions fed to `Tree.Scan`. -/
inductive EventAction where
  | create
  | update
  | move
  | delete
  | moveFrom
deriving DecidableEq, Repr

/-- Background goroutines spawned by the tree (recorded, not executed). -/
inductive Task where
  | warmupTask (root : Path) (assim onlyDirty : Bool)
  | reassimilate (item : ScanItem)
  | replicateToCurrent (spaceID id : String)
deriving DecidableEq, Repr

/-- Domain events published by the tree. -/
inductive Event where
  | itemTrashed (spaceID parentID id name : String)
  | itemMoved (spaceID parentID name oldParentID oldName : String)
  | containerCreated (spaceID id : String)
  | fileTouched (spaceID id : String)
  | uploadReady (spaceID id : String)
deriving DecidableEq, Repr

/-- Model of `xattr.Set` for the dirty flag (`Tree.setDirty`). -/
def setDirty (fs : FS) (p : Path) (dirty : Bool) : Except Err FS :=
  match fsGet fs p with
  | none => .error .pathError
  | some e => .ok (fsSet fs p (attrSet e dirtyAttr (if dirty then "true" else "false")))

/-- Modelled from the spec: `idsForPath` reads xattrs and fails with
`NotFound` when the path has no id (section 4.1). -/
def idsForPath (st : St) (p : Path) : Except Err (String × String) :=
  match fsGet st.fs p with
  | none => .error (.notFound (pathToString p))
  | some e =>
    match attrOf e idAttr with
    | none => .error (.notFound (pathToString p))
    | some id => .ok ((attrOf e spaceIDAttr).getD "", id)

/-- Read one xattr through the metadata backend with the error discarded, as
`assimilate` reads the previous parent id. -/
def mdGetAttr (st : St) (p : Path) (k : String) : Option String :=
  (fsGet st.fs p).bind (fun e => attrOf e k)

/-- Model of `MetadataBackend.All`: every xattr of a path. -/
def mdAll (st : St) (p : Path) : Except Err (List (String × String)) :=
  match fsGet st.fs p with
  | none => .error .pathError
  | some e => .ok e.xattrs

/-- Model of `Tree.HandleFileDelete`. -/
def handleFileDelete (st : St) (p : Path) : St × List Event × Except Err Unit :=
  match idsForPath st p with
  | .error e => (st, [], .error e)
  | .ok (spaceID, id) =>
    let st2 := mdPurge { st with idc := idcDeleteByPath st.idc p } p
    match idsForPath st2 p.dropLast with
    | .error e => (st2, [], .error e)
    | .ok (_, parentID) =>
      (st2, [.itemTrashed spaceID parentID id (p.getLast?.getD "")], .ok ())

/-- The outcome of one `Tree.Scan` dispatch: the state, the debounced scans it
scheduled, the goroutines it spawned and the events it published. -/
structure ScanOut where
  st : St
  scheduled : List ScanItem := []
  tasks : List Task := []
  events : List Event := []
  result : Except Err Unit := .ok ()
deriving DecidableEq, Repr

/-- Model of `Tree.Scan`, the dispatcher mapping filesystem events to
debounced work. -/
def scan (st : St) (deb : DebState) (p : Path) (action : EventAction) (isDir : Bool) :
    ScanOut :=
  match action with
  | .create =>
    if !isDir then
      let sched1 :=
        if !inProgressB deb p.dropLast then
          [{ path := p, forceRescan := false, recurse := false }]
        else []
      match setDirty st.fs p.dropLast true with
      | .error e => { st := st, scheduled := sched1, result := .error e }
      | .ok fs2 =>
        { st := { st with fs := fs2 },
          scheduled := sched1 ++ [{ path := p.dropLast, forceRescan := true, recurse := true }] }
    else
      match setDirty st.fs p true with
      | .error e => { st := st, result := .error e }
      | .ok fs2 =>
        { st := { st with fs := fs2 },
          scheduled := [{ path := p, forceRescan := true, recurse := true }] }
  | .update =>
    if !inProgressB deb p.dropLast then
      { st := st, scheduled := [{ path := p, forceRescan := true, recurse := false }] }
    else { st := st }
  | .move =>
    { st := st, scheduled := [{ path := p, forceRescan := isDir, recurse := isDir }] }
  | .moveFrom =>
    match setDirty st.fs p.dropLast true with
    | .error e => { st := st, result := .error e }
    | .ok fs2 =>
      { st := { st with fs := fs2 }, tasks := [.warmupTask p.dropLast false true] }
  | .delete =>
    match handleFileDelete st p with
    | (st2, evs, .error e) => { st := st2, events := evs, result := .error e }
    | (st2, evs, .ok _) =>
      { st := st2, events := evs,
        scheduled := [{ path := p.dropLast, forceRescan := true, recurse := true }] }

/-- Configuration of the tree relevant to assimilation. -/
structure TreeOpts where
  root : Path := []
  mountID : String := ""
deriving DecidableEq, Repr

/-- The ancestor walk of `findSpaceId`: try the path and its ancestors while
they still extend the configured root, returning the first space id found
(fuel bounds the walk, which the source bounds by the path depth). -/
def findSpaceIdGo (st : St) (root : Path) : Nat → Path → Except Err String
  | 0, _ => .error (.internalError "could not find space")
  | fuel + 1, candidate =>
    if pfx root candidate then
      match idsForPath st candidate with
      | .ok (spaceID, _) =>
        if spaceID ≠ "" then .ok spaceID
        else if candidate = [] then .error (.internalError "could not find space")
        else findSpaceIdGo st root fuel candidate.dropLast
      | .error _ =>
        if candidate = [] then .error (.internalError "could not find space")
        else findSpaceIdGo st root fuel candidate.dropLast
    else .error (.internalError "could not find space")

/-- Model of `Tree.findSpaceId`. -/
def findSpaceId (st : St) (root : Path) (p : Path) : Except Err String :=
  findSpaceIdGo st root (p.length + 1) p

/-- Deterministic stand-in for `uuid.New`: a freshness counter threaded
through the assimilation mints distinct ids. -/
def mkUuid (gen : Nat) : String :=
  "uuid." ++ toString gen

/-- Modelled from the spec: the three streamed checksums of the content
(section 4.2), modelled as injective tagged copies of the content. -/
def checksumsOf (s : String) : List (String × String) :=
  [(checksumAttrStem ++ "sha1", "sha1:" ++ s),
   (checksumAttrStem ++ "md5", "md5:" ++ s),
   (checksumAttrStem ++ "adler32", "adler32:" ++ s)]

/-- The result of `assimilate`: state, uuid counter, published events, spawned
goroutines and the error. -/
structure AOut where
  st : St
  gen : Nat
  events : List Event := []
  tasks : List Task := []
  result : Except Err Unit := .ok ()
deriving DecidableEq, Repr

/-- The result of `updateFile`: state, uuid counter, published events, spawned
goroutines, and on success the stat info plus the written attributes. -/
structure UOut where
  st : St
  gen : Nat
  events : List Event := []
  tasks : List Task := []
  res : Except Err (FsEntry × List (String × String))
deriving DecidableEq, Repr

/-- The straight-line tail of `updateFile` after the parent id is known:
stat, read previous attributes, build the attribute set (checksums, type,
sizes, mtime), spawn the replicate-to-current side task, propagate with zero
diff, write the attributes and cache the id. -/
def updateFileBody (st : St) (p : Path) (id spaceID parentID : String) (gen now : Nat) :
    UOut :=
  match fsGet st.fs p with
  | none => ⟨st, gen, [], [], .error (.internalError "failed to stat item")⟩
  | some fi =>
    let base0 := [(idAttr, id), (nameAttr, p.getLast?.getD "")]
    let base1 := if parentID ≠ "" then base0 ++ [(parentidAttr, parentID)] else base0
    let base2 := if fi.isDir then base1 else base1 ++ checksumsOf fi.content
    if fi.isDir then
      let tsz := (attrOf fi treesizeAttr).getD "0"
      match strToInt? tsz with
      | none => ⟨st, gen, [], [], .error (.internalError "failed to parse treesize")⟩
      | some _ =>
        let attrs := base2 ++ [(typeAttr, "2"), (treesizeAttr, tsz), (propagationAttr, "1"),
          (mtimeAttr, toString fi.mtime)]
        let st2 := propagate st p 0 now
        match fsGet st2.fs p with
        | none => ⟨st2, gen, [], [], .error (.internalError "failed to set attributes")⟩
        | some cur =>
          let st3 := { st2 with fs := fsSet st2.fs p (attrsSetMany cur attrs) }
          let st4 := { st3 with idc := cacheID st3.idc spaceID id p }
          ⟨st4, gen, [], [Task.replicateToCurrent spaceID id], .ok (fi, attrs)⟩
    else
      let blobID := mkUuid gen
      let attrs := base2 ++ [(blobIDAttr, blobID), (blobsizeAttr, toString fi.content.length),
        (typeAttr, "1"), (mtimeAttr, toString fi.mtime)]
      let st2 := propagate st p 0 now
      match fsGet st2.fs p with
      | none => ⟨st2, gen + 1, [], [], .error (.internalError "failed to set attributes")⟩
      | some cur =>
        let st3 := { st2 with fs := fsSet st2.fs p (attrsSetMany cur attrs) }
        let st4 := { st3 with idc := cacheID st3.idc spaceID id p }
        ⟨st4, gen + 1, [], [Task.replicateToCurrent spaceID id], .ok (fi, attrs)⟩

mutual

/-- Model of `Tree.assimilate` (fuel bounds the parent recursion, which the
source bounds by the path depth). -/
def assimilateGo (st : St) (opts : TreeOpts) (item : ScanItem) (gen now : Nat) :
    (fuelA : Nat) → AOut
  | 0 => ⟨st, gen, [], [], .error (.internalError "recursion fuel exhausted")⟩
  | fuel + 1 =>
    match findSpaceId st opts.root item.path with
    | .error e => ⟨st, gen, [], [], .error e⟩
    | .ok spaceID =>
      match identifyPath st item.path with
      | .error e => ⟨st, gen, [], [], .error e⟩
      | .ok (_, id, mtimeO) =>
        if id ≠ "" then
          let prevO := getCachedID st.idc spaceID id
          let previousPath := prevO.getD []
          let previousParentID := (mdGetAttr st (internalPath st spaceID id) parentidAttr).getD ""
          let statO := fsGet st.fs item.path
          if statO.isSome && decide (previousPath = item.path) &&
              decide (mtimeO = statO.map FsEntry.mtime) then
            ⟨st, gen, [], [], .ok ()⟩
          else if prevO.isSome && decide (previousParentID ≠ "") &&
              decide (previousPath ≠ item.path) then
            match fsGet st.fs previousPath with
            | some _ =>
              ⟨mdPurge st item.path, gen, [],
                [Task.reassimilate { path := item.path, forceRescan := true, recurse := false }],
                .ok ()⟩
            | none =>
              let st2 := { st with idc := cacheID st.idc spaceID id item.path }
              match updateFileGo st2 opts item.path id spaceID gen now 1 fuel with
              | ⟨st3, gen3, evs3, tasks3, .error e⟩ => ⟨st3, gen3, evs3, tasks3, .error e⟩
              | ⟨st3, gen3, evs3, tasks3, .ok (fi, attrs)⟩ =>
                let st4 := { st3 with idc := idcDeletePath st3.idc previousPath }
                let warm := if fi.isDir then [Task.warmupTask item.path false true] else []
                let parentID :=
                  ((alookup attrs parentidAttr).getD "")
                let evs := if parentID ≠ "" then
                    [Event.itemMoved spaceID parentID (item.path.getLast?.getD "")
                      previousParentID (previousPath.getLast?.getD "")]
                  else []
                ⟨st4, gen3, evs3 ++ evs, tasks3 ++ warm, .ok ()⟩
          else
            let st2 := { st with idc := cacheID st.idc spaceID id item.path }
            match updateFileGo st2 opts item.path id spaceID gen now 1 fuel with
            | ⟨st3, gen3, evs3, tasks3, .error e⟩ => ⟨st3, gen3, evs3, tasks3, .error e⟩
            | ⟨st3, gen3, evs3, tasks3, .ok _⟩ => ⟨st3, gen3, evs3, tasks3, .ok ()⟩
        else
          let newId := mkUuid gen
          match updateFileGo st opts item.path newId spaceID (gen + 1) now 1 fuel with
          | ⟨st3, gen3, evs3, tasks3, .error e⟩ => ⟨st3, gen3, evs3, tasks3, .error e⟩
          | ⟨st3, gen3, evs3, tasks3, .ok (fi, _)⟩ =>
            let ev := if fi.isDir then Event.containerCreated spaceID newId
              else if fi.content.length = 0 then Event.fileTouched spaceID newId
              else Event.uploadReady spaceID newId
            ⟨st3, gen3, evs3 ++ [ev], tasks3, .ok ()⟩
termination_by structural fuelA => fuelA

/-- Model of `Tree.updateFile`: resolve the parent (assimilating it once on
empty parent attributes), then run the straight-line tail. -/
def updateFileGo (st : St) (opts : TreeOpts) (p : Path) (id spaceID : String)
    (gen now retries : Nat) : (fuelU : Nat) → UOut
  | 0 => ⟨st, gen, [], [], .error (.internalError "recursion fuel exhausted")⟩
  | fuel + 1 =>
    if id ≠ spaceID then
      match idsForPath st p.dropLast with
      | .error _ => ⟨st, gen, [], [], .error (.internalError "failed to read parent id")⟩
      | .ok (_, parentID0) =>
        match mdAll st (internalPath st spaceID parentID0) with
        | .error _ =>
          ⟨st, gen, [], [], .error (.internalError "failed to read parent item attributes")⟩
        | .ok parentAttribs =>
          let pid :=
            ((alookup parentAttribs idAttr).getD "")
          if parentAttribs.isEmpty || pid = "" then
            if retries = 0 then
              ⟨st, gen, [], [],
                .error (.internalError "got empty parent attribs even after assimilating")⟩
            else
              match assimilateGo st opts
                  { path := p.dropLast, forceRescan := false, recurse := false } gen now fuel with
              | ⟨st2, gen2, evs2, tasks2, .error e⟩ => ⟨st2, gen2, evs2, tasks2, .error e⟩
              | ⟨st2, gen2, evs2, tasks2, .ok _⟩ =>
                match updateFileGo st2 opts p id spaceID gen2 now (retries - 1) fuel with
                | ⟨st3, gen3, evs3, tasks3, r⟩ =>
                  ⟨st3, gen3, evs2 ++ evs3, tasks2 ++ tasks3, r⟩
          else updateFileBody st p id spaceID pid gen now
    else updateFileBody st p id spaceID "" gen now
termination_by structural fuelU => fuelU

end

/-- Model of `Tree.assimilate` at the entry point, with fuel set to the path
depth plus one. -/
def assimilate (st : St) (opts : TreeOpts) (item : ScanItem) (gen now : Nat) : AOut :=
  assimilateGo st opts item gen now (item.path.length + 1)

/-- Model of `xattr.Get`: a missing attribute on an existing file is the
attr-unset error; a missing file is a path error. -/
def xattrGetE (fs : FS) (p : Path) (k : String) : Except Err String :=
  match fsGet fs p with
  | none => .error .pathError
  | some e =>
    match attrOf e k with
    | none => .error .attrUnset
    | some v => .ok v

/-- Model of `Tree.isDirty`. -/
def isDirty (fs : FS) (p : Path) : Except Err Bool :=
  match xattrGetE fs p dirtyAttr with
  | .error .attrUnset => .ok true
  | .error e => .error e
  | .ok v => .ok (v = "true")

/-- Walk control of the warmup callback for a directory under `onlyDirty`. -/
inductive WalkCtl where
  | cont
  | skipDir
  | fail (e : Err)
deriving DecidableEq, Repr

/-- The `onlyDirty` directory branch of the `WarmupIDCache` walk callback:
prune the subtree unless the directory counts as dirty. -/
def warmupDirVisit (fs : FS) (p : Path) : WalkCtl :=
  match isDirty fs p with
  | .error e => .fail e
  | .ok dirty => if !dirty then .skipDir else .cont

/-- A concrete state with a space root, one live file and one trashed item,
used by several witnesses and counterexamples. -/
def exTrashSt : St :=
  { fs := [(["s"], { isDir := true, xattrs := [(idAttr, "s"), (spaceIDAttr, "s")] }),
           (["s", "f"], { content := "live", xattrs := [(idAttr, "n1"), (parentidAttr, "s")] }),
           (["s", ".Trash"], { isDir := true }),
           (["s", ".Trash", "files"], { isDir := true }),
           (["s", ".Trash", "files", "k.trashitem"], { content := "data" }),
           (["s", ".Trash", "info"], { isDir := true }),
           (["s", ".Trash", "info", "k.trashinfo"],
             { content := "[Trash Info]\nPath=f\nDeletionDate=5" })],
    idc := { byId := [(("s", "s"), ["s"])], byPath := [(["s"], ("s", "s"))] } }

/-- The resolved trash node used by the trashbin fixtures. -/
def exTNode : TNode :=
  { spaceID := "s", id := "n1", spaceRoot := ["s"], path := ["s", "f"] }

/-- A caller holding ListRecycle and Stat but not PurgeRecycle. -/
def exListOnlyPerms : TrashPerms :=
  { purgeRecycle := false, listRecycle := true, stat := true }

/-- C2 counterexample: with trash permissions granting ListRecycle but not
PurgeRecycle, EmptyRecycle does not fail with PermissionDenied or NotFound; it
succeeds and removes the trashed item from disk, contradicting the claim that
both operations require PurgeRecycle. -/
theorem c2_counterexample :
    (emptyRecycle exTrashSt exTNode exListOnlyPerms).2 = Except.ok () ∧
      fsGet (emptyRecycle exTrashSt exTNode exListOnlyPerms).1.fs
        ["s", ".Trash", "files", "k.trashitem"] = none ∧
      fsGet exTrashSt.fs ["s", ".Trash", "files", "k.trashitem"] =
        some { content := "data" } := by
  refine ⟨rfl, ?_, rfl⟩
  rfl

/-- C2 (amended): PurgeRecycleItem requires PurgeRecycle, while EmptyRecycle
requires ListRecycle or PurgeRecycle; when the required permissions are all
missing the operation changes nothing and fails with PermissionDenied when the
caller has Stat, otherwise NotFound. -/
theorem c2_amended (st : St) (n : TNode) (rp : TrashPerms) (key relativePath : String)
    (hp : rp.purgeRecycle = false) :
    purgeRecycleItem st n rp key relativePath =
        (st, .error (if rp.stat then Err.permissionDenied key else Err.notFound key)) ∧
      (rp.listRecycle = false →
        emptyRecycle st n rp =
          (st, .error (if rp.stat then Err.permissionDenied n.id else Err.notFound n.id))) := by
  constructor
  · simp [purgeRecycleItem, hp]
  · intro hl
    simp [emptyRecycle, hp, hl]

/-- C2 amended witness at a concrete caller without PurgeRecycle. -/
theorem c2_amended_witness :
    exListOnlyPerms.purgeRecycle = false ∧
      purgeRecycleItem exTrashSt exTNode exListOnlyPerms "k" "." =
        (exTrashSt, .error (Err.permissionDenied "k")) := by
  refine ⟨rfl, ?_⟩
  have h := (c2_amended exTrashSt exTNode exListOnlyPerms "k" "." rfl).1
  simpa using h

/-- C9 counterexample: with a non-empty key whose `.trashinfo` sidecar is
missing, ListRecycle does not return an empty list even though the directory
it would list does not exist; it fails with the info-file read error. -/
theorem c9_counterexample :
    listRecycle exTrashSt "s" "k2" "" = .error .pathError ∧
      fsGet exTrashSt.fs ["s", ".Trash", "files", "k2.trashitem"] = none := by
  exact ⟨rfl, rfl⟩

/-- C9 (amended): ListRecycle returns an empty item list and no error when the
directory it would list is missing, provided that for a non-empty key the
`.trashinfo` sidecar of that key is present and parses (otherwise the sidecar
read error is returned first). -/
theorem c9_amended (st : St) (spaceID key relativePath : String) :
    ((key = "" ∧
        fsGet st.fs (internalPath st spaceID spaceID ++ [".Trash", "files"]) = none) →
      listRecycle st spaceID key relativePath = .ok []) ∧
    (∀ pr, key ≠ "" →
      readInfoFile st (internalPath st spaceID spaceID ++ [".Trash"]) key = .ok pr →
      fsGet st.fs (internalPath st spaceID spaceID ++
        [".Trash", "files", key ++ ".trashitem"] ++ relClean relativePath) = none →
      listRecycle st spaceID key relativePath = .ok []) := by
  constructor
  · rintro ⟨rfl, hdir⟩
    simp only [listRecycle, readDirNames]
    rw [if_neg (by simp)]
    have hdir2 : fsGet st.fs (internalPath st spaceID spaceID ++ [".Trash"] ++ ["files"]) = none := by
      simpa using hdir
    rw [hdir2]
  · intro pr hk hinfo hdir
    simp only [listRecycle, readDirNames]
    rw [if_pos hk, hinfo]
    obtain ⟨p0, t0⟩ := pr
    have hdir2 : fsGet st.fs (internalPath st spaceID spaceID ++ [".Trash"] ++
        ["files", key ++ ".trashitem"] ++ relClean relativePath) = none := by
      simpa using hdir
    rw [hdir2]

/-- C9 amended witness: listing a missing key-directory with an intact sidecar
yields an empty list, at a concrete state. -/
theorem c9_amended_witness :
    ("k" : String) ≠ "" ∧
      readInfoFile exTrashSt (internalPath exTrashSt "s" "s" ++ [".Trash"]) "k" =
        .ok ("f", some 5) ∧
      fsGet exTrashSt.fs (internalPath exTrashSt "s" "s" ++
        [".Trash", "files", "k" ++ ".trashitem"] ++ relClean "sub") = none ∧
      listRecycle exTrashSt "s" "k" "sub" = .ok [] := by
  refine ⟨by decide, by rfl, by rfl, ?_⟩
  exact (c9_amended exTrashSt "s" "k" "sub").2 ("f", some 5) (by decide) (by rfl) (by rfl)

/-- C10: a directory whose dirty xattr is unset counts as dirty, so the
onlyDirty warmup walk does not prune it; the walk prunes exactly the
directories whose dirty xattr holds a value other than true. -/
theorem c10_dirty_unset (fs : FS) (p : Path) :
    (∀ e, fsGet fs p = some e → attrOf e dirtyAttr = none →
      isDirty fs p = .ok true ∧ warmupDirVisit fs p = .cont) ∧
    (warmupDirVisit fs p = .skipDir ↔
      ∃ e v, fsGet fs p = some e ∧ attrOf e dirtyAttr = some v ∧ v ≠ "true") := by
  constructor
  · intro e he ha
    constructor
    · simp [isDirty, xattrGetE, he, ha]
    · simp [warmupDirVisit, isDirty, xattrGetE, he, ha]
  · constructor
    · intro h
      cases hfs : fsGet fs p with
      | none => simp [warmupDirVisit, isDirty, xattrGetE, hfs] at h
      | some e =>
        cases ha : attrOf e dirtyAttr with
        | none => simp [warmupDirVisit, isDirty, xattrGetE, hfs, ha] at h
        | some v =>
          by_cases hv : v = "true"
          · simp [warmupDirVisit, isDirty, xattrGetE, hfs, ha, hv] at h
          · exact ⟨e, v, rfl, ha, hv⟩
    · rintro ⟨e, v, he, ha, hv⟩
      simp [warmupDirVisit, isDirty, xattrGetE, he, ha, hv]

/-- C10 witness: at a concrete state, an untagged directory is dirty and not
pruned, and a directory tagged false is pruned. -/
theorem c10_dirty_unset_witness :
    fsGet exTrashSt.fs ["s"] =
        some { isDir := true, xattrs := [(idAttr, "s"), (spaceIDAttr, "s")] } ∧
      attrOf { isDir := true, xattrs := [(idAttr, "s"), (spaceIDAttr, "s")] } dirtyAttr = none ∧
      isDirty exTrashSt.fs ["s"] = .ok true ∧
      warmupDirVisit exTrashSt.fs ["s"] = .cont := by
  refine ⟨rfl, by decide, ?_⟩
  have h := ((c10_dirty_unset exTrashSt.fs ["s"]).1
    { isDir := true, xattrs := [(idAttr, "s"), (spaceIDAttr, "s")] } rfl (by decide))
  exact h

/-- The flags the debouncer actually delivers for a chain of coalesced
requests: the disjunction of the raw flags of the last two requests (earlier
flags are discarded when a later request arrives). -/
def lastTwoMerge : ScanItem → List ScanItem → Bool × Bool
  | a, [] => (a.forceRescan, a.recurse)
  | a, [b] => (b.forceRescan || a.forceRescan, b.recurse || a.recurse)
  | _, b :: c :: l => lastTwoMerge b (c :: l)

/-- Captured-flag accumulator mirroring `debounceStep` on a pending entry. -/
def mergeAux : PendingEntry → List ScanItem → Bool × Bool
  | q, [] => (q.capturedForce, q.capturedRecurse)
  | q, b :: l =>
    mergeAux { item := b, capturedForce := b.forceRescan || q.item.forceRescan,
               capturedRecurse := b.recurse || q.item.recurse } l

theorem debounceFire_foldl (p : Path) (l : List ScanItem) (q : PendingEntry) :
    debounceFire p (l.foldl debounceStep (some q)) =
      some { path := p, forceRescan := (mergeAux q l).1, recurse := (mergeAux q l).2 } := by
  induction l generalizing q with
  | nil => rfl
  | cons b rest ih => simpa [mergeAux, debounceStep] using ih _

theorem mergeAux_eq_lastTwoMerge (l : List ScanItem) (a : ScanItem) (f r : Bool) :
    mergeAux { item := a, capturedForce := f, capturedRecurse := r } l =
      if l.isEmpty then (f, r) else lastTwoMerge a l := by
  induction l generalizing a f r with
  | nil => rfl
  | cons b rest ih =>
    cases rest with
    | nil => simp [mergeAux, lastTwoMerge]
    | cons c l2 =>
      simpa [mergeAux, lastTwoMerge] using ih b (b.forceRescan || a.forceRescan) (b.recurse || a.recurse)

/-- Three concrete debounce requests for one path: flags (T,T) then twice
(F,F). -/
def c4Requests : List ScanItem :=
  [{ path := ["p"], forceRescan := true, recurse := true },
   { path := ["p"], forceRescan := false, recurse := false },
   { path := ["p"], forceRescan := false, recurse := false }]

/-- C4 counterexample: three coalesced requests with flags (T,T), (F,F), (F,F)
fire a scan with both flags false, although the disjunction of all coalesced
ForceRescan (and Recurse) flags is true: only the raw flags of the previous
pending item are merged, so the first request's flags are lost. -/
theorem c4_counterexample :
    debounceFire ["p"] (debounceRun c4Requests) =
        some { path := ["p"], forceRescan := false, recurse := false } ∧
      c4Requests.any (fun i => i.forceRescan) = true := by
  exact ⟨rfl, rfl⟩

/-- C4 (amended): a later Debounce call for a pending path stops the pending
timer and starts a fresh one, and the scan eventually executed carries the
disjunction of the ForceRescan (and Recurse) flags of the last two coalesced
requests; the flags of earlier requests are discarded. -/
theorem c4_amended (p : Path) (a : ScanItem) (l : List ScanItem) :
    debounceFire p (debounceRun (a :: l)) =
      some { path := p, forceRescan := (lastTwoMerge a l).1,
             recurse := (lastTwoMerge a l).2 } := by
  have h1 := debounceFire_foldl p l
    { item := a, capturedForce := a.forceRescan, capturedRecurse := a.recurse }
  have h2 := mergeAux_eq_lastTwoMerge l a a.forceRescan a.recurse
  cases l with
  | nil =>
    simp only [debounceRun, List.foldl, debounceStep] at h1 ⊢
    rw [h1, h2]
    rfl
  | cons b rest =>
    simp only [debounceRun, List.foldl, debounceStep] at h1 ⊢
    rw [h1, h2]
    rfl

/-- A concrete state for the scan-dispatch fixtures: a root, a directory and a
file inside it. -/
def exScanSt : St :=
  { fs := [(["r"], { isDir := true }),
           (["r", "d"], { isDir := true }),
           (["r", "d", "f"], { content := "x" })] }

/-- C5 counterexample: when the parent directory is already pending in the
debouncer, Scan(path, ActionCreate, isDir=false) schedules only the parent
rescan; no debounced assimilation of the path itself is scheduled, so the
claim's unconditional first effect fails. -/
theorem c5_counterexample :
    (scan exScanSt { pending := [["r", "d"]], inProgress := [] } ["r", "d", "f"]
        .create false).scheduled =
      [{ path := ["r", "d"], forceRescan := true, recurse := true }] ∧
    ((scan exScanSt { pending := [["r", "d"]], inProgress := [] } ["r", "d", "f"]
        .create false).scheduled.any (fun i => decide (i.path = ["r", "d", "f"])) = false) := by
  exact ⟨rfl, rfl⟩

/-- C5 (amended): Scan(path, ActionCreate, isDir=false) marks the parent
directory dirty and schedules a debounced parent rescan with ForceRescan and
Recurse set; the debounced assimilation of the path itself is scheduled only
when the parent is not already pending or in progress in the debouncer. -/
theorem c5_amended (st : St) (deb : DebState) (p : Path) (fs2 : FS)
    (hd : setDirty st.fs p.dropLast true = .ok fs2) :
    scan st deb p .create false =
      { st := { st with fs := fs2 },
        scheduled :=
          (if !inProgressB deb p.dropLast then
            [{ path := p, forceRescan := false, recurse := false }]
          else []) ++
          [{ path := p.dropLast, forceRescan := true, recurse := true }] } := by
  simp [scan, hd]

/-- The live node entry of the revision fixtures. -/
def exNodeEntry : FsEntry :=
  { content := "live", mtime := 9,
    xattrs := [(idAttr, "n1"), (parentidAttr, "s"), (mtimeAttr, "9"),
               (blobIDAttr, "b1"), (blobsizeAttr, "4"), (typeAttr, "1"),
               (checksumAttrStem ++ "sha1", "sha1:live")] }

/-- The existing revision entry of the revision fixtures. -/
def exRevEntry : FsEntry :=
  { content := "old", mtime := 5,
    xattrs := [(blobIDAttr, "b0"), (blobsizeAttr, "3"), (mtimeAttr, "5"), (typeAttr, "1")] }

/-- A concrete state for the revision-engine fixtures: a space root, a live
file node `n1` at `s/f` and one revision of it at timestamp 5. -/
def exRevSt : St :=
  { fs := [(["s"], { isDir := true, xattrs := [(idAttr, "s"), (spaceIDAttr, "s")] }),
           (["s", "f"], exNodeEntry),
           (["s", "f.REV.5"], exRevEntry)],
    idc := { byId := [(("s", "s"), ["s"]), (("s", "n1"), ["s", "f"])],
             byPath := [(["s"], ("s", "s")), (["s", "f"], ("s", "n1"))] } }

/-- The resolved revision-engine node of the fixtures. -/
def exRNode : RNode :=
  { spaceID := "s", id := "n1", parentID := "par", name := "f", blobsize := 4, present := true }

/-- C1 counterexample: DeleteRevision with a caller lacking both the required
RestoreFileVersion permission and Stat returns PermissionDenied, not the
NotFound the claim requires for callers without Stat. -/
theorem c1_counterexample :
    (deleteRevision exRevSt exRNode {} "n1.REV.5").2 =
        .error (.permissionDenied "par/f") ∧
      Err.isNotFound (.permissionDenied "par/f") = false := by
  exact ⟨rfl, rfl⟩

/-- C1 (amended): ListRevisions, DownloadRevision, RestoreRevision,
PurgeRecycleItem and EmptyRecycle return NotFound when the caller lacks the
checked permission and Stat, and PermissionDenied when the caller has Stat;
DeleteRevision (through getRevisionNode) instead returns PermissionDenied
whenever the caller lacks RestoreFileVersion, regardless of Stat. -/
theorem c1_amended (st : St) (n : RNode) (tn : TNode) (rp : RevPerms) (tp : TrashPerms)
    (refStr key relativePath baseID ts : String)
    (hn : n.present = true) (hkey : splitRev key = some (baseID, ts)) :
    (rp.listFileVersions = false →
      listRevisions st n rp refStr =
        .error (if rp.stat then Err.permissionDenied refStr else Err.notFound refStr)) ∧
    ((rp.listFileVersions = false ∨ rp.initiateFileDownload = false) → ∀ openReader,
      downloadRevision st n rp refStr key openReader =
        .error (if rp.stat then Err.permissionDenied refStr else Err.notFound refStr)) ∧
    (rp.restoreFileVersion = false → ∀ faults now,
      restoreRevision st n rp refStr key faults now =
        (st, .error (if rp.stat then Err.permissionDenied refStr else Err.notFound refStr))) ∧
    (tp.purgeRecycle = false →
      purgeRecycleItem st tn tp key relativePath =
        (st, .error (if tp.stat then Err.permissionDenied key else Err.notFound key))) ∧
    (tp.purgeRecycle = false → tp.listRecycle = false →
      emptyRecycle st tn tp =
        (st, .error (if tp.stat then Err.permissionDenied tn.id else Err.notFound tn.id))) ∧
    (rp.restoreFileVersion = false →
      deleteRevision st n rp key =
        (st, .error (Err.permissionDenied (joinStr n.parentID n.name)))) := by
  refine ⟨?_, ?_, ?_, ?_, ?_, ?_⟩
  · intro hp
    simp [listRevisions, hn, hp]
  · rintro (hp | hp) openReader
    · simp [downloadRevision, hkey, hn, hp]
    · simp only [downloadRevision, hkey, hn, hp]
      simp
  · intro hp faults now
    simp [restoreRevision, hkey, hn, hp]
  · intro hp
    simp [purgeRecycleItem, hp]
  · intro hp hl
    simp [emptyRecycle, hp, hl]
  · intro hp
    simp [deleteRevision, getRevisionNode, hkey, hn, hp]

/-- C1 amended witness at a concrete state: a Stat-only caller gets
PermissionDenied from ListRevisions. -/
theorem c1_amended_witness :
    exRNode.present = true ∧
      splitRev "n1.REV.5" = some ("n1", "5") ∧
      listRevisions exRevSt exRNode { stat := true } "ref" =
        .error (Err.permissionDenied "ref") := by
  refine ⟨rfl, rfl, ?_⟩
  have h := (c1_amended exRevSt exRNode exTNode { stat := true } {} "ref" "n1.REV.5" "."
    "n1" "5" rfl rfl).1 rfl
  simpa using h

/-- C7: when the revision file at the requested timestamp already exists,
CreateRevision fails with AlreadyExists and the state, in particular the
existing revision file, is unchanged. -/
theorem c7_create_revision_collides (st : St) (n : RNode) (version : String) (now : Nat)
    (src ex : FsEntry)
    (hmk : mkdirAll st.fs (versionPath st n.spaceID n.id version).dropLast = .ok st.fs)
    (hsrc : fsGet st.fs (internalPath st n.spaceID n.id) = some src)
    (hfile : src.isDir = false)
    (hex : fsGet st.fs (versionPath st n.spaceID n.id version) = some ex) :
    createRevision st n version now =
      (st, .error (.alreadyExists (pathToString (versionPath st n.spaceID n.id version)))) := by
  simp [createRevision, hmk, hsrc, hfile, hex]

/-- C7 witness: creating revision 5 of node n1 collides with the existing
revision file and leaves the state unchanged. -/
theorem c7_create_revision_collides_witness :
    mkdirAll exRevSt.fs (versionPath exRevSt "s" "n1" "5").dropLast = .ok exRevSt.fs ∧
      fsGet exRevSt.fs (internalPath exRevSt "s" "n1") = some exNodeEntry ∧
      exNodeEntry.isDir = false ∧
      fsGet exRevSt.fs (versionPath exRevSt "s" "n1" "5") = some exRevEntry ∧
      createRevision exRevSt exRNode "5" 77 =
        (exRevSt, .error (.alreadyExists "s/f.REV.5")) := by
  refine ⟨rfl, rfl, rfl, rfl, ?_⟩
  have h := c7_create_revision_collides exRevSt exRNode "5" 77 exNodeEntry exRevEntry
    rfl rfl rfl rfl
  simpa using h

/-- C8: whenever RestoreRevision fails in any step after the new revision file
has been created, the created revision file is removed and its metadata purged
before the error is returned. -/
theorem c8_restore_compensation (st st2 : St) (n : RNode) (rp : RevPerms)
    (refStr revisionKey baseID ts : String) (faults : Faults) (now : Nat)
    (ne : FsEntry) (mtime : Nat) (fsC : FS) (e : Err)
    (hkey : splitRev revisionKey = some (baseID, ts))
    (hn : n.present = true)
    (hrp : rp.restoreFileVersion = true)
    (hnode : fsGet st.fs (internalPath st n.spaceID baseID) = some ne)
    (hmtime : (attrOf ne mtimeAttr).bind strToNat? = some mtime)
    (hcreate : osCreate st.fs
      (internalPath st n.spaceID (baseID ++ ".REV." ++ toString mtime)) now = .ok fsC)
    (hcore : restoreRevisionCore { st with fs := fsC } n revisionKey
      (internalPath st n.spaceID baseID)
      (internalPath st n.spaceID (baseID ++ ".REV." ++ toString mtime)) mtime faults now =
      (st2, .error e)) :
    restoreRevision st n rp refStr revisionKey faults now =
        (revisionCompensate st2 (internalPath st n.spaceID (baseID ++ ".REV." ++ toString mtime)),
          .error e) ∧
      fsGet (revisionCompensate st2
          (internalPath st n.spaceID (baseID ++ ".REV." ++ toString mtime))).fs
        (internalPath st n.spaceID (baseID ++ ".REV." ++ toString mtime)) = none ∧
      ¬ (internalPath st n.spaceID (baseID ++ ".REV." ++ toString mtime)) ∈
        (revisionCompensate st2
          (internalPath st n.spaceID (baseID ++ ".REV." ++ toString mtime))).metaCache := by
  refine ⟨?_, ?_, ?_⟩
  · simp only [restoreRevision, hkey, hn, hrp]
    simp only [Bool.not_true, Bool.false_eq_true, if_false]
    simp only [hnode, hmtime, hcreate, hcore]
  · simp [revisionCompensate, mdPurge, fsGet_fsDrop_same]
  · simp [revisionCompensate, mdPurge, List.mem_filter]

/-- The state of the C8 witness after the new revision file has been touched. -/
def c8FsC : FS :=
  fsSet exRevSt.fs ["s", "f.REV.9"] { content := "", mtime := 100 }

/-- The core state of the C8 witness at the injected chtimes failure. -/
def c8St2 : St :=
  (restoreRevisionCore { exRevSt with fs := c8FsC } exRNode "n1.REV.5" ["s", "f"]
    ["s", "f.REV.9"] 9 { chtimes := true } 100).1

/-- C8 witness: an injected chtimes failure after the new revision was created
leaves no revision file and no cached metadata at the new revision path. -/
theorem c8_restore_compensation_witness :
    osCreate exRevSt.fs ["s", "f.REV.9"] 100 = .ok c8FsC ∧
      restoreRevisionCore { exRevSt with fs := c8FsC } exRNode "n1.REV.5" ["s", "f"]
          ["s", "f.REV.9"] 9 { chtimes := true } 100 =
        (c8St2, .error (.internalError "failed to change mtime of version node")) ∧
      fsGet (revisionCompensate c8St2 ["s", "f.REV.9"]).fs ["s", "f.REV.9"] = none := by
  refine ⟨rfl, rfl, ?_⟩
  have h := (c8_restore_compensation exRevSt c8St2 exRNode
    { restoreFileVersion := true, stat := true } "ref" "n1.REV.5" "n1" "5"
    { chtimes := true } 100 exNodeEntry 9 c8FsC
    (.internalError "failed to change mtime of version node")
    rfl rfl rfl rfl rfl rfl rfl).2.1
  simpa using h

/-- C6: the assimilation fast path. When the path already carries an id, the
cached path for that id is the path itself and the stored mtime xattr equals
the filesystem mtime, assimilate succeeds and changes nothing: no attributes
written, no revision task spawned, no event emitted, and the state (metadata,
id cache, filesystem) is returned unchanged. -/
theorem c6_fast_path (st : St) (opts : TreeOpts) (item : ScanItem) (gen now : Nat)
    (sid0 spaceID id : String) (m : Nat) (fe : FsEntry)
    (hspace : findSpaceId st opts.root item.path = .ok spaceID)
    (hident : identifyPath st item.path = .ok (sid0, id, some m))
    (hid : id ≠ "")
    (hcache : getCachedID st.idc spaceID id = some item.path)
    (hstat : fsGet st.fs item.path = some fe)
    (hm : fe.mtime = m) :
    assimilate st opts item gen now =
      { st := st, gen := gen, events := [], tasks := [], result := .ok () } := by
  simp only [assimilate, assimilateGo, hspace, hident, hid, hcache, hstat]
  simp [hid, hm]

/-- C6 witness: at a concrete state whose cached path and stored mtime match,
assimilation is a no-op. -/
theorem c6_fast_path_witness :
    findSpaceId exRevSt [] ["s", "f"] = .ok "s" ∧
      identifyPath exRevSt ["s", "f"] = .ok ("", "n1", some 9) ∧
      getCachedID exRevSt.idc "s" "n1" = some ["s", "f"] ∧
      fsGet exRevSt.fs ["s", "f"] = some exNodeEntry ∧
      assimilate exRevSt { root := [] } { path := ["s", "f"] } 3 50 =
        { st := exRevSt, gen := 3, events := [], tasks := [], result := .ok () } := by
  refine ⟨rfl, rfl, rfl, rfl, ?_⟩
  exact c6_fast_path exRevSt { root := [] } { path := ["s", "f"] } 3 50 "" "s" "n1" 9
    exNodeEntry rfl rfl (by decide) rfl rfl rfl

/-- The dirty-marked scan fixture filesystem. -/
def exScanFsDirty : FS :=
  fsSet exScanSt.fs ["r", "d"] (attrSet { isDir := true } dirtyAttr "true")

/-- C5 amended witness: with an idle debouncer, both the file assimilation and
the parent rescan are scheduled and the parent is marked dirty. -/
theorem c5_amended_witness :
    setDirty exScanSt.fs ["r", "d"] true = .ok exScanFsDirty ∧
      scan exScanSt {} ["r", "d", "f"] .create false =
        { st := { exScanSt with fs := exScanFsDirty },
          scheduled := [{ path := ["r", "d", "f"], forceRescan := false, recurse := false },
            { path := ["r", "d"], forceRescan := true, recurse := true }] } := by
  refine ⟨by rfl, ?_⟩
  have h := c5_amended exScanSt {} ["r", "d", "f"] exScanFsDirty (by rfl)
  simpa using h

/-- The `.trashinfo` sidecar entry written by `MoveToTrash`. -/
def c3InfoE (rel : Path) (now : Nat) : FsEntry :=
  { content := trashInfoContent (pathToString rel) now, mtime := now }

/-- The filesystem after `MoveToTrash` wrote the sidecar. -/
def c3Fs2 (st0 : St) (sr rel : Path) (key : String) (now : Nat) : FS :=
  fsSet st0.fs (sr ++ [".Trash", "info", key ++ ".trashinfo"]) (c3InfoE rel now)

/-- The filesystem after `MoveToTrash` renamed the node into the trash. -/
def c3Fs3 (st0 : St) (sr rel : Path) (key : String) (now : Nat) : FS :=
  (c3Fs2 st0 sr rel key now).filter
      (fun b => pfx (sr ++ rel) b.fst = false &&
        pfx (sr ++ [".Trash", "files", key ++ ".trashitem"]) b.fst = false) ++
    fsMovePart (c3Fs2 st0 sr rel key now) (sr ++ rel)
      (sr ++ [".Trash", "files", key ++ ".trashitem"])

/-- The state after `MoveToTrash`. -/
def c3St1 (st0 : St) (sr rel : Path) (key : String) (now : Nat) : St :=
  { fs := c3Fs3 st0 sr rel key now,
    idc := idcDeleteByPath st0.idc (sr ++ rel),
    metaCache := st0.metaCache.filter (fun q => decide (q ≠ sr ++ rel)) }

/-- The trashed item after `RestoreRecycleItem` rewrote its parent id. -/
def c3Fs3b (st0 : St) (sr rel : Path) (key : String) (now : Nat) (e : FsEntry)
    (pid : String) : FS :=
  fsSet (c3Fs3 st0 sr rel key now) (sr ++ [".Trash", "files", key ++ ".trashitem"])
    (attrSet e parentidAttr pid)

/-- The filesystem after `RestoreRecycleItem` renamed the item back. -/
def c3Fs4 (st0 : St) (sr rel : Path) (key : String) (now : Nat) (e : FsEntry)
    (pid : String) : FS :=
  (c3Fs3b st0 sr rel key now e pid).filter
      (fun b => pfx (sr ++ [".Trash", "files", key ++ ".trashitem"]) b.fst = false &&
        pfx (sr ++ rel) b.fst = false) ++
    fsMovePart (c3Fs3b st0 sr rel key now e pid)
      (sr ++ [".Trash", "files", key ++ ".trashitem"]) (sr ++ rel)

/-- The state after `RestoreRecycleItem`. -/
def c3StF (st0 : St) (sr rel : Path) (sid i key : String) (now : Nat) (e : FsEntry)
    (pid : String) : St :=
  { fs := fsDrop (c3Fs4 st0 sr rel key now e pid) (sr ++ [".Trash", "info", key ++ ".trashinfo"]),
    idc := cacheID (idcDeleteByPath st0.idc (sr ++ rel)) sid i (sr ++ rel),
    metaCache := st0.metaCache.filter (fun q => decide (q ≠ sr ++ rel)) }

theorem c3_move_eq (st0 : St) (sid i key : String) (sr rel : Path) (e : FsEntry) (now : Nat)
    (hrel : rel ≠ [])
    (hrelHead : rel.head? ≠ some ".Trash")
    (hnode : fsGet st0.fs (sr ++ rel) = some e)
    (hmk1 : mkdirAll st0.fs (sr ++ [".Trash", "info"]) = .ok st0.fs)
    (hmk2 : mkdirAll st0.fs (sr ++ [".Trash", "files"]) = .ok st0.fs)
    (hinfoNew : fsGet st0.fs (sr ++ [".Trash", "info", key ++ ".trashinfo"]) = none) :
    moveToTrash st0 { spaceID := sid, id := i, spaceRoot := sr, path := sr ++ rel }
        (sr ++ rel) key now = (c3St1 st0 sr rel key now, .ok ()) := by
  have hF1 : pfx (sr ++ rel) (sr ++ [".Trash", "info", key ++ ".trashinfo"]) = false := by
    rw [pfx_append_cancel]
    exact pfx_false_of_head_ne2 ".Trash" _ rel hrelHead hrel
  have hTIdir : ∃ d, fsGet st0.fs (sr ++ [".Trash", "info"]) = some d ∧ d.isDir = true := by
    have := mkdirAllGo_ok_dir st0.fs st0.fs [] (sr ++ [".Trash", "info"]) hmk1 (by simp)
    simpa using this
  obtain ⟨dI, hdI, hdIdir⟩ := hTIdir
  have hdrop : (sr ++ [".Trash", "info", key ++ ".trashinfo"]).dropLast =
      sr ++ [".Trash", "info"] := by
    rw [List.dropLast_append_of_ne_nil sr (by simp)]
    rfl
  have hde : dirExists st0.fs ((sr ++ [".Trash", "info", key ++ ".trashinfo"]).dropLast) =
      true := by
    rw [hdrop]
    simp [dirExists, hdI, hdIdir]
  have hwf : writeFileAt st0.fs (sr ++ [".Trash", "info", key ++ ".trashinfo"])
      (trashInfoContent (pathToString rel) now) now = .ok (c3Fs2 st0 sr rel key now) := by
    simp only [writeFileAt, hinfoNew, hde, if_true]
    rfl
  have hget2 : fsGet (c3Fs2 st0 sr rel key now) (sr ++ rel) = some e := by
    rw [c3Fs2, fsGet_fsSet_other _ _ _ _ (ne_of_pfx_false _ _ hF1)]
    exact hnode
  have hrn : renameFs (c3Fs2 st0 sr rel key now) (sr ++ rel)
      (sr ++ [".Trash", "files", key ++ ".trashitem"]) = .ok (c3Fs3 st0 sr rel key now) := by
    rw [renameFs_ok _ _ _ _ hget2]
    rfl
  simp only [moveToTrash, writeInfoFile, List.append_assoc, List.cons_append, List.nil_append,
    hmk1, hmk2, pfx_append, if_true, List.drop_left, hwf, hrn, mdPurge, c3St1]

theorem c3_restore_eq (st0 : St) (sid i pid refId key : String) (sr rel refPath base : Path)
    (e pe : FsEntry) (now : Nat)
    (hrel : rel ≠ [])
    (hrelHead : rel.head? ≠ some ".Trash")
    (hnode : fsGet st0.fs (sr ++ rel) = some e)
    (hid : attrOf e idAttr = some i)
    (hparent : fsGet st0.fs ((sr ++ rel).dropLast) = some pe)
    (hpid : attrOf pe idAttr = some pid)
    (hpidne : pid ≠ "")
    (hroot : getCachedID st0.idc sid sid = some sr)
    (hsidRev : splitRev sid = none)
    (hbase : getCachedID st0.idc sid refId = some base)
    (hbasene : base ≠ sr ++ rel)
    (hbp : base ++ refPath = sr ++ rel) :
    restoreRecycleItem (c3St1 st0 sr rel key now) sid key "." refId refPath =
      (c3StF st0 sr rel sid i key now e pid, .ok ()) := by
  have hsrne : sr ≠ sr ++ rel := by
    intro hx
    have := congrArg List.length hx
    simp at this
    exact hrel this
  have hF1 : pfx (sr ++ rel) (sr ++ [".Trash", "info", key ++ ".trashinfo"]) = false := by
    rw [pfx_append_cancel]
    exact pfx_false_of_head_ne2 ".Trash" _ rel hrelHead hrel
  have hF3 : pfx (sr ++ rel) (sr ++ [".Trash", "files", key ++ ".trashitem"]) = false := by
    rw [pfx_append_cancel]
    exact pfx_false_of_head_ne2 ".Trash" _ rel hrelHead hrel
  have hF4 : pfx (sr ++ [".Trash", "files", key ++ ".trashitem"]) (sr ++ rel) = false := by
    rw [pfx_append_cancel]
    exact pfx_false_of_head_ne ".Trash" _ rel hrelHead
  have hF8 : pfx (sr ++ [".Trash", "files", key ++ ".trashitem"])
      (sr ++ [".Trash", "info", key ++ ".trashinfo"]) = false := by
    rw [pfx_append_cancel]
    rfl
  have hF5 : pfx (sr ++ rel) ((sr ++ rel).dropLast) = false := by
    apply Bool.eq_false_iff.mpr
    intro hx
    have hle := pfx_length_le _ _ hx
    rw [List.length_dropLast] at hle
    have hpos : 0 < rel.length := List.length_pos.mpr hrel
    simp [List.length_append] at hle
    omega
  have hdropP : (sr ++ rel).dropLast = sr ++ rel.dropLast :=
    List.dropLast_append_of_ne_nil sr hrel
  have hF6 : pfx (sr ++ [".Trash", "files", key ++ ".trashitem"]) ((sr ++ rel).dropLast) =
      false := by
    rw [hdropP, pfx_append_cancel]
    rcases head?_dropLast rel with h0 | h0
    · rw [h0]
      rfl
    · exact pfx_false_of_head_ne ".Trash" _ _ (by rw [h0]; exact hrelHead)
  have hF6i : pfx (sr ++ [".Trash", "info", key ++ ".trashinfo"]) ((sr ++ rel).dropLast) =
      false := by
    rw [hdropP, pfx_append_cancel]
    rcases head?_dropLast rel with h0 | h0
    · rw [h0]
      rfl
    · exact pfx_false_of_head_ne ".Trash" _ _ (by rw [h0]; exact hrelHead)
  have hrootKeep : getCachedID (idcDeleteByPath st0.idc (sr ++ rel)) sid sid = some sr :=
    alookupKeepSnd st0.idc.byId (sid, sid) sr (sr ++ rel) hroot hsrne
  have hbaseKeep : getCachedID (idcDeleteByPath st0.idc (sr ++ rel)) sid refId = some base :=
    alookupKeepSnd st0.idc.byId (sid, refId) base (sr ++ rel) hbase hbasene
  have hget2 : fsGet (c3Fs2 st0 sr rel key now) (sr ++ rel) = some e := by
    rw [c3Fs2, fsGet_fsSet_other _ _ _ _ (ne_of_pfx_false _ _ hF1)]
    exact hnode
  have hget3 : fsGet (c3Fs3 st0 sr rel key now)
      (sr ++ [".Trash", "files", key ++ ".trashitem"]) = some e := by
    rw [c3Fs3]
    have h1 := renameFs_get_dst (c3Fs2 st0 sr rel key now) (sr ++ rel)
      (sr ++ [".Trash", "files", key ++ ".trashitem"])
    rw [h1]
    exact hget2
  have hget4 : fsGet (c3Fs3 st0 sr rel key now) ((sr ++ rel).dropLast) = some pe := by
    rw [c3Fs3]
    have h1 := renameFs_get_other (c3Fs2 st0 sr rel key now) (sr ++ rel)
      (sr ++ [".Trash", "files", key ++ ".trashitem"]) ((sr ++ rel).dropLast) hF5 hF6
    rw [h1, c3Fs2, fsGet_fsSet_other _ _ _ _ (Ne.symm (ne_of_pfx_false _ _ hF6i))]
    exact hparent
  have hget5 : fsGet (fsSet (c3Fs3 st0 sr rel key now)
      (sr ++ [".Trash", "files", key ++ ".trashitem"]) (attrSet e parentidAttr pid))
      (sr ++ [".Trash", "files", key ++ ".trashitem"]) =
      some (attrSet e parentidAttr pid) :=
    fsGet_fsSet_same _ _ _
  have hrn2 : renameFs (fsSet (c3Fs3 st0 sr rel key now)
      (sr ++ [".Trash", "files", key ++ ".trashitem"]) (attrSet e parentidAttr pid))
      (sr ++ [".Trash", "files", key ++ ".trashitem"]) (sr ++ rel) =
      .ok (c3Fs4 st0 sr rel key now e pid) := by
    rw [renameFs_ok _ _ _ _ hget5, c3Fs4, c3Fs3b]
  have hget6 : fsGet (c3Fs4 st0 sr rel key now e pid)
      (sr ++ [".Trash", "info", key ++ ".trashinfo"]) = some (c3InfoE rel now) := by
    rw [c3Fs4]
    have h1 := renameFs_get_other (c3Fs3b st0 sr rel key now e pid)
      (sr ++ [".Trash", "files", key ++ ".trashitem"]) (sr ++ rel)
      (sr ++ [".Trash", "info", key ++ ".trashinfo"]) hF8 hF1
    rw [h1, c3Fs3b, fsGet_fsSet_other _ _ _ _ (Ne.symm (ne_of_pfx_false _ _ hF8)), c3Fs3]
    have h2 := renameFs_get_other (c3Fs2 st0 sr rel key now) (sr ++ rel)
      (sr ++ [".Trash", "files", key ++ ".trashitem"])
      (sr ++ [".Trash", "info", key ++ ".trashinfo"]) hF1 hF8
    rw [h2, c3Fs2]
    exact fsGet_fsSet_same _ _ _
  simp [restoreRecycleItem, internalPath, hsidRev, c3St1, hrootKeep, hbaseKeep, relClean,
    identifyPath, hbp, hget3, hget4, hget5, hget6, hrn2, hid, hpid, hpidne, mdSetAttr,
    c3StF]

/-- C3: trash round-trip. Moving a file node to the trash and restoring the
whole item back to its original reference succeeds and yields a node at the
original path carrying the original id xattr, a parentid xattr equal to the
parent's id, the original content and the original checksum xattrs. -/
theorem c3_trash_roundtrip (st0 : St) (sid i pid refId key : String)
    (sr rel refPath base : Path) (e pe : FsEntry) (now : Nat)
    (hrel : rel ≠ [])
    (hrelHead : rel.head? ≠ some ".Trash")
    (hnode : fsGet st0.fs (sr ++ rel) = some e)
    (hid : attrOf e idAttr = some i)
    (hparent : fsGet st0.fs ((sr ++ rel).dropLast) = some pe)
    (hpid : attrOf pe idAttr = some pid)
    (hpidne : pid ≠ "")
    (hmk1 : mkdirAll st0.fs (sr ++ [".Trash", "info"]) = .ok st0.fs)
    (hmk2 : mkdirAll st0.fs (sr ++ [".Trash", "files"]) = .ok st0.fs)
    (hinfoNew : fsGet st0.fs (sr ++ [".Trash", "info", key ++ ".trashinfo"]) = none)
    (hroot : getCachedID st0.idc sid sid = some sr)
    (hsidRev : splitRev sid = none)
    (hbase : getCachedID st0.idc sid refId = some base)
    (hbasene : base ≠ sr ++ rel)
    (hbp : base ++ refPath = sr ++ rel) :
    (moveToTrash st0 { spaceID := sid, id := i, spaceRoot := sr, path := sr ++ rel }
        (sr ++ rel) key now).2 = .ok () ∧
    (restoreRecycleItem (moveToTrash st0
        { spaceID := sid, id := i, spaceRoot := sr, path := sr ++ rel }
        (sr ++ rel) key now).1 sid key "." refId refPath).2 = .ok () ∧
    ∃ e2, fsGet (restoreRecycleItem (moveToTrash st0
          { spaceID := sid, id := i, spaceRoot := sr, path := sr ++ rel }
          (sr ++ rel) key now).1 sid key "." refId refPath).1.fs (sr ++ rel) = some e2 ∧
      e2.content = e.content ∧
      attrOf e2 idAttr = some i ∧
      attrOf e2 parentidAttr = some pid ∧
      ∀ k2, strHasPfx k2 checksumAttrStem = true → attrOf e2 k2 = attrOf e k2 := by
  have hm := c3_move_eq st0 sid i key sr rel e now hrel hrelHead hnode hmk1 hmk2 hinfoNew
  have hr := c3_restore_eq st0 sid i pid refId key sr rel refPath base e pe now hrel hrelHead
    hnode hid hparent hpid hpidne hroot hsidRev hbase hbasene hbp
  have hF1 : pfx (sr ++ rel) (sr ++ [".Trash", "info", key ++ ".trashinfo"]) = false := by
    rw [pfx_append_cancel]
    exact pfx_false_of_head_ne2 ".Trash" _ rel hrelHead hrel
  rw [hm]
  refine ⟨rfl, ?_, ?_⟩
  · rw [hr]
  · rw [hr]
    refine ⟨attrSet e parentidAttr pid, ?_, attrSet_content e _ _, ?_, attrOf_attrSet_same e _ _,
      ?_⟩
    · show fsGet (c3StF st0 sr rel sid i key now e pid).fs (sr ++ rel) =
        some (attrSet e parentidAttr pid)
      rw [c3StF]
      show fsGet (fsDrop (c3Fs4 st0 sr rel key now e pid)
        (sr ++ [".Trash", "info", key ++ ".trashinfo"])) (sr ++ rel) =
        some (attrSet e parentidAttr pid)
      rw [fsGet_fsDrop_other _ _ _ (ne_of_pfx_false _ _ hF1), c3Fs4]
      have h1 := renameFs_get_dst (c3Fs3b st0 sr rel key now e pid)
        (sr ++ [".Trash", "files", key ++ ".trashitem"]) (sr ++ rel)
      rw [h1, c3Fs3b]
      exact fsGet_fsSet_same _ _ _
    · rw [attrOf_attrSet_other e parentidAttr idAttr pid (by decide)]
      exact hid
    · intro k2 hk2
      have hkne : k2 ≠ parentidAttr := by
        intro hx
        rw [hx] at hk2
        exact absurd hk2 (by decide)
      exact attrOf_attrSet_other e parentidAttr k2 pid hkne

/-- A concrete state for the C3 witness: a space root carrying its id, a live
file node and a pre-existing (empty) trash structure. -/
def exC3St : St :=
  { fs := [(["s"], { isDir := true, xattrs := [(idAttr, "s"), (spaceIDAttr, "s")] }),
           (["s", "f"], exNodeEntry),
           (["s", ".Trash"], { isDir := true }),
           (["s", ".Trash", "info"], { isDir := true }),
           (["s", ".Trash", "files"], { isDir := true })],
    idc := { byId := [(("s", "s"), ["s"]), (("s", "n1"), ["s", "f"])],
             byPath := [(["s"], ("s", "s")), (["s", "f"], ("s", "n1"))] } }

/-- C3 witness: the concrete round trip restores the node with its id, parent
id, content and checksums. -/
theorem c3_trash_roundtrip_witness :
    fsGet exC3St.fs (["s"] ++ ["f"]) = some exNodeEntry ∧
      attrOf exNodeEntry idAttr = some "n1" ∧
      (moveToTrash exC3St { spaceID := "s", id := "n1", spaceRoot := ["s"], path := ["s"] ++ ["f"] }
        (["s"] ++ ["f"]) "k" 42).2 = .ok () ∧
      ∃ e2, fsGet (restoreRecycleItem (moveToTrash exC3St
            { spaceID := "s", id := "n1", spaceRoot := ["s"], path := ["s"] ++ ["f"] }
            (["s"] ++ ["f"]) "k" 42).1 "s" "k" "." "s" ["f"]).1.fs (["s"] ++ ["f"]) = some e2 ∧
        e2.content = exNodeEntry.content ∧
        attrOf e2 idAttr = some "n1" ∧
        attrOf e2 parentidAttr = some "s" ∧
        ∀ k2, strHasPfx k2 checksumAttrStem = true → attrOf e2 k2 = attrOf exNodeEntry k2 := by
  have h := c3_trash_roundtrip exC3St "s" "n1" "s" "s" "k" ["s"] ["f"] ["f"] ["s"]
    exNodeEntry { isDir := true, xattrs := [(idAttr, "s"), (spaceIDAttr, "s")] } 42
    (by decide) (by decide) (by rfl) (by rfl) (by rfl) (by rfl) (by decide)
    (by rfl) (by rfl) (by rfl) (by rfl) (by rfl) (by rfl) (by decide) (by rfl)
  exact ⟨by rfl, by rfl, h.1, h.2.2⟩

end Reva
